import Mathlib

/-!
# ReelPick movie store and recommendation engine: a shallow embedding

This file embeds the Firestore-backed movie store module of the ReelPick
repository (the `ensureUserDocument`, watchlist, watched-movie/rating and
`getRecommendedMovies` functions) as pure Lean functions over an explicit
database state, and proves or refutes the specification claims about it.

Modelling conventions:
* Firestore is a pair of keyed collections (`users`, `ratings`), modelled as
  association lists so all operations are executable.
* Asynchronous Firestore operations may fail (store unavailable).  A `Faults`
  record says which collection's operations fail; every primitive consults it.
  Effectful computations have type `FS α = DB → Except Unit α × DB`: the
  resulting state is kept even on failure (a write that happened before a
  later fault persists), matching sequential `await` semantics.
* JavaScript `try/catch` becomes `fsCatch`; a catch block that rethrows is
  `fsCatch x fsThrow`.
* `new Date()` / `Timestamp.now()` become an explicit `now : Nat` parameter.
* JS truthiness on optional strings (`review || movie.review`,
  `review || null`) is modelled by `jsOrElse` / `jsOrNull`: both `undefined`
  (`none`) and the empty string are falsy.
* `Array.prototype.sort` (stable since ES2019) with comparator
  `(a, b) => b.score - a.score` is modelled by the stable `List.mergeSort`
  with `le a b := b.score ≤ a.score`; `Array.prototype.slice(0, end)` with a
  possibly negative `end` is modelled by `jsSlice`.
-/

namespace ReelPick

/-- The `Movie` interface: catalog display data. -/
structure Movie where
  id : Int
  title : String
  poster_path : Option String
  release_date : String
  overview : String
deriving DecidableEq

/-- The `UserMovie` interface: `Movie` extended with rating/review/watch date
(the extra fields are optional). -/
structure UserMovie where
  id : Int
  title : String
  poster_path : Option String
  release_date : String
  overview : String
  rating : Option Int
  review : Option String
  watchedDate : Option String
deriving DecidableEq

/-- The nested `movie` object stored inside a document of the `ratings`
collection: `{ id, title, poster_path }`. -/
structure MovieRef where
  id : Int
  title : String
  poster_path : Option String
deriving DecidableEq

/-- A document of the global `ratings` collection, keyed by
`"{userId}_{movieId}"`. -/
structure RatingDoc where
  userId : String
  movieId : Int
  movie : MovieRef
  rating : Int
  review : Option String
  timestamp : Nat
deriving DecidableEq

/-- A document of the `users` collection. -/
structure UserDoc where
  uid : String
  email : String
  username : String
  createdAt : String
  watchedMovies : List UserMovie
  watchlist : List Movie
deriving DecidableEq

/-- The Firestore state visible to this module: the `users` collection and the
`ratings` collection, each an association list from document id. -/
structure DB where
  users : List (String × UserDoc)
  ratings : List (String × RatingDoc)
deriving DecidableEq

/-- Which collections' operations currently fail (store unavailable). -/
structure Faults where
  users : Bool
  ratings : Bool
deriving DecidableEq

/-- A fully healthy store. -/
def noFaults : Faults := ⟨false, false⟩

/-- Result of an effectful Firestore computation: an `Except` value plus the
database state when the computation finished (kept even on failure). -/
def FS (α : Type) : Type := DB → Except Unit α × DB

/-- Return a value, leaving the store unchanged. -/
def fsPure {α : Type} (a : α) : FS α := fun db => (Except.ok a, db)

/-- Sequencing of effectful computations (`await`). -/
def fsBind {α β : Type} (x : FS α) (f : α → FS β) : FS β := fun db =>
  match x db with
  | (Except.ok a, db') => f a db'
  | (Except.error e, db') => (Except.error e, db')

/-- `throw error`. -/
def fsThrow {α : Type} : FS α := fun db => (Except.error (), db)

/-- `try x catch { h }`: run the handler from the state at failure time. -/
def fsCatch {α : Type} (x : FS α) (h : FS α) : FS α := fun db =>
  match x db with
  | (Except.error _, db') => h db'
  | ok => ok

/-- Look a key up in an association list (first match wins). -/
def lookupAssoc {α : Type} : List (String × α) → String → Option α
  | [], _ => none
  | p :: t, k => if p.1 == k then some p.2 else lookupAssoc t k

/-- `setDoc`: replace the document at a key, or create it. -/
def setAssoc {α : Type} : List (String × α) → String → α → List (String × α)
  | [], k, v => [(k, v)]
  | p :: t, k, v => if p.1 == k then (k, v) :: t else p :: setAssoc t k v

/-- `updateDoc` on a present key: update the document in place. -/
def updateAssoc {α : Type} : List (String × α) → String → (α → α) →
    List (String × α)
  | [], _, _ => []
  | p :: t, k, f => if p.1 == k then (p.1, f p.2) :: t else p :: updateAssoc t k f

/-- `getDoc` on the `users` collection. -/
def fsGetUser (fl : Faults) (uid : String) : FS (Option UserDoc) := fun db =>
  if fl.users then (Except.error (), db)
  else (Except.ok (lookupAssoc db.users uid), db)

/-- `setDoc` on the `users` collection. -/
def fsSetUser (fl : Faults) (uid : String) (d : UserDoc) : FS Unit := fun db =>
  if fl.users then (Except.error (), db)
  else (Except.ok (), { db with users := setAssoc db.users uid d })

/-- `updateDoc` on the `users` collection: fails when the document is
missing (as Firestore's `updateDoc` does). -/
def fsUpdateUser (fl : Faults) (uid : String) (f : UserDoc → UserDoc) :
    FS Unit := fun db =>
  if fl.users then (Except.error (), db)
  else match lookupAssoc db.users uid with
    | none => (Except.error (), db)
    | some _ => (Except.ok (), { db with users := updateAssoc db.users uid f })

/-- `getDoc` on the `ratings` collection. -/
def fsGetRating (fl : Faults) (key : String) : FS (Option RatingDoc) :=
  fun db =>
    if fl.ratings then (Except.error (), db)
    else (Except.ok (lookupAssoc db.ratings key), db)

/-- `setDoc` on the `ratings` collection. -/
def fsSetRating (fl : Faults) (key : String) (d : RatingDoc) : FS Unit :=
  fun db =>
    if fl.ratings then (Except.error (), db)
    else (Except.ok (), { db with ratings := setAssoc db.ratings key d })

/-- `updateDoc` on the `ratings` collection. -/
def fsUpdateRating (fl : Faults) (key : String) (f : RatingDoc → RatingDoc) :
    FS Unit := fun db =>
  if fl.ratings then (Except.error (), db)
  else match lookupAssoc db.ratings key with
    | none => (Except.error (), db)
    | some _ => (Except.ok (), { db with ratings := updateAssoc db.ratings key f })

/-- `getDocs` of a query on the `ratings` collection: the documents whose
fields satisfy the predicate, in collection order (the store's order is
unspecified; the model fixes it to list order). -/
def fsQueryRatings (fl : Faults) (pred : RatingDoc → Bool) :
    FS (List RatingDoc) := fun db =>
  if fl.ratings then (Except.error (), db)
  else (Except.ok ((db.ratings.map (·.2)).filter pred), db)

/-- The document id `` `${userId}_${movieId}` `` used in the `ratings`
collection. -/
def ratingKey (userId : String) (movieId : Int) : String :=
  userId ++ "_" ++ toString movieId

/-- The blank user document `ensureUserDocument` creates when the user's
document is missing. -/
def initialUserDoc (userId : String) (now : Nat) : UserDoc :=
  { uid := userId, email := "", username := "User", createdAt := toString now,
    watchedMovies := [], watchlist := [] }

/-- `ensureUserDocument`: create a blank user document when missing; its
`catch` swallows errors and returns `false`. -/
def ensureUserDocument (fl : Faults) (now : Nat) (userId : String) : FS Bool :=
  fsCatch
    (fsBind (fsGetUser fl userId) fun userDoc =>
      match userDoc with
      | none =>
          fsBind (fsSetUser fl userId (initialUserDoc userId now))
            (fun _ => fsPure true)
      | some _ => fsPure true)
    (fsPure false)

/-- `getWatchedMovies`: the user's `watchedMovies` array (empty when the
document is missing); its `catch` logs and rethrows. -/
def getWatchedMovies (fl : Faults) (now : Nat) (userId : String) :
    FS (List UserMovie) :=
  fsCatch
    (fsBind (ensureUserDocument fl now userId) fun _ =>
     fsBind (fsGetUser fl userId) fun userDoc =>
       match userDoc with
       | some u => fsPure u.watchedMovies
       | none => fsPure [])
    fsThrow

/-- `removeFromWatchlist`: filter the movie out of the user's watchlist. -/
def removeFromWatchlist (fl : Faults) (now : Nat) (userId : String)
    (movieId : Int) : FS Bool :=
  fsCatch
    (fsBind (ensureUserDocument fl now userId) fun _ =>
     fsBind (fsGetUser fl userId) fun userDoc =>
       match userDoc with
       | some u =>
           fsBind (fsUpdateUser fl userId (fun v =>
             { v with watchlist :=
                 u.watchlist.filter (fun m => !(m.id == movieId)) }))
             (fun _ => fsPure true)
       | none => fsPure false)
    fsThrow

/-- `arrayUnion` on the `watchedMovies` array: append the element unless an
identical element is already present. -/
def arrayUnionUM (l : List UserMovie) (x : UserMovie) : List UserMovie :=
  if l.contains x then l else l ++ [x]

/-- The element `addWatchedMovie` appends to `watchedMovies`:
`{ ...movie, rating, review, watchedDate }`. -/
def watchedEntryOf (movie : Movie) (rating : Int) (review : Option String)
    (now : Nat) : UserMovie :=
  { id := movie.id, title := movie.title, poster_path := movie.poster_path,
    release_date := movie.release_date, overview := movie.overview,
    rating := some rating, review := review,
    watchedDate := some (toString now) }

/-- The `ratings` document `addWatchedMovie` mirrors the rating into. -/
def ratingDocOf (userId : String) (movie : Movie) (rating : Int)
    (review : Option String) (now : Nat) : RatingDoc :=
  { userId := userId, movieId := movie.id,
    movie := { id := movie.id, title := movie.title,
               poster_path := movie.poster_path },
    rating := rating, review := review, timestamp := now }

/-- `addWatchedMovie`: append the rated movie to `watchedMovies` via
`arrayUnion`, mirror it into the `ratings` collection via `setDoc`, then
remove it from the watchlist; its `catch` logs and rethrows. -/
def addWatchedMovie (fl : Faults) (now : Nat) (userId : String) (movie : Movie)
    (rating : Int) (review : Option String) : FS Bool :=
  fsCatch
    (fsBind (ensureUserDocument fl now userId) fun _ =>
     fsBind (fsUpdateUser fl userId (fun v =>
       { v with watchedMovies := arrayUnionUM v.watchedMovies (watchedEntryOf movie rating review now) })) fun _ =>
     fsBind (fsSetRating fl (ratingKey userId movie.id)
       (ratingDocOf userId movie rating review now)) fun _ =>
     fsBind (removeFromWatchlist fl now userId movie.id) fun _ =>
     fsPure true)
    fsThrow

/-- JS `a || b` on optional strings: `undefined` and `""` are falsy. -/
def jsOrElse (a b : Option String) : Option String :=
  match a with
  | some s => if s == "" then b else some s
  | none => b

/-- JS `a || null` on an optional string. -/
def jsOrNull (a : Option String) : Option String :=
  match a with
  | some s => if s == "" then none else some s
  | none => none

/-- The `ratings` document `updateMovieRating` creates when the mirror is
missing, built from the user's watched entry. -/
def freshRatingDoc (userId : String) (movieId : Int) (userMovieDoc : UserMovie)
    (rating : Int) (review : Option String) (now : Nat) : RatingDoc :=
  { userId := userId, movieId := movieId,
    movie := { id := movieId, title := userMovieDoc.title,
               poster_path := userMovieDoc.poster_path },
    rating := rating, review := jsOrNull review, timestamp := now }

/-- `updateMovieRating`: rewrite the matching `watchedMovies` entry with the
new rating and `review || movie.review`, then update (or create) the mirrored
`ratings` document with `review: review || null`. -/
def updateMovieRating (fl : Faults) (now : Nat) (userId : String)
    (movieId : Int) (rating : Int) (review : Option String) : FS Bool :=
  fsCatch
    (fsBind (ensureUserDocument fl now userId) fun _ =>
     fsBind (fsGetUser fl userId) fun userDoc =>
       match userDoc with
       | some u =>
           let updatedWatchedMovies := u.watchedMovies.map (fun m =>
             if m.id == movieId then
               { m with rating := some rating,
                        review := jsOrElse review m.review }
             else m)
           fsBind (fsUpdateUser fl userId
             (fun v => { v with watchedMovies := updatedWatchedMovies }))
             fun _ =>
           fsBind (fsGetRating fl (ratingKey userId movieId)) fun ratingDoc =>
           match ratingDoc with
           | some _ =>
               fsBind (fsUpdateRating fl (ratingKey userId movieId) (fun r =>
                 { r with rating := rating, review := jsOrNull review }))
                 (fun _ => fsPure true)
           | none =>
               match u.watchedMovies.find? (fun m => m.id == movieId) with
               | some userMovieDoc =>
                   fsBind (fsSetRating fl (ratingKey userId movieId)
                     (freshRatingDoc userId movieId userMovieDoc rating review now))
                     (fun _ => fsPure true)
               | none => fsPure true
       | none => fsPure false)
    fsThrow

/-- A recommendation candidate: `{ ...data.movie, score }`. -/
structure ScoredMovie where
  id : Int
  title : String
  poster_path : Option String
  score : Int
deriving DecidableEq

/-- JS `Set.add`: insertion-ordered, first occurrence wins. -/
def insertUnique (l : List String) (x : String) : List String :=
  if l.contains x then l else l ++ [x]

/-- JS `Map.get` on the score map. -/
def mapGetAssoc : List (Int × ScoredMovie) → Int → Option ScoredMovie
  | [], _ => none
  | p :: t, k => if p.1 == k then some p.2 else mapGetAssoc t k

/-- JS `Map.set`: overwrite in place when the key exists (keeping its
insertion position), otherwise append. -/
def mapSetAssoc : List (Int × ScoredMovie) → Int → ScoredMovie →
    List (Int × ScoredMovie)
  | [], k, v => [(k, v)]
  | p :: t, k, v => if p.1 == k then (k, v) :: t else p :: mapSetAssoc t k v

/-- The `rating && rating >= 4` filter on a user's watched movies (an absent
or zero rating is falsy). -/
def isHighlyRated (m : UserMovie) : Bool :=
  match m.rating with
  | some r => !(r == 0) && 4 ≤ r
  | none => false

/-- The neighbor-discovery loop: for each highly rated movie, query raters
with `rating ≥ 4` and add every user id other than `userId` to the set. -/
def similarUsersLoop (fl : Faults) (userId : String) :
    List UserMovie → List String → FS (List String)
  | [], acc => fsPure acc
  | movie :: rest, acc =>
      fsBind (fsQueryRatings fl
        (fun d => d.movieId == movie.id && 4 ≤ d.rating)) fun docs =>
      similarUsersLoop fl userId rest
        (docs.foldl (fun s d => if d.userId != userId then insertUnique s d.userId else s) acc)

/-- The `querySnapshot.forEach` body of candidate aggregation: skip watched
movies, then accumulate `score += rating` or insert a new entry. -/
def accumulateDocs (watchedIds : List Int) :
    List (Int × ScoredMovie) → List RatingDoc → List (Int × ScoredMovie)
  | acc, [] => acc
  | acc, d :: ds =>
      if watchedIds.contains d.movieId then accumulateDocs watchedIds acc ds
      else
        match mapGetAssoc acc d.movieId with
        | some m =>
            accumulateDocs watchedIds
              (mapSetAssoc acc d.movieId { m with score := m.score + d.rating }) ds
        | none =>
            accumulateDocs watchedIds
              (acc ++ [(d.movieId,
                { id := d.movie.id, title := d.movie.title,
                  poster_path := d.movie.poster_path, score := d.rating })]) ds

/-- The candidate-aggregation loop: one `ratings` query per similar user. -/
def candidatesLoop (fl : Faults) (watchedIds : List Int) :
    List String → List (Int × ScoredMovie) → FS (List (Int × ScoredMovie))
  | [], acc => fsPure acc
  | u :: us, acc =>
      fsBind (fsQueryRatings fl (fun d => d.userId == u && 4 ≤ d.rating))
        fun docs =>
      candidatesLoop fl watchedIds us (accumulateDocs watchedIds acc docs)

/-- The comparator `(a, b) => b.score - a.score`: `a` may come first exactly
when its score is at least `b`'s. -/
def scoreGe (a b : ScoredMovie) : Bool := b.score ≤ a.score

/-- One step of the stable descending sort: `a` is placed after every earlier
element with a strictly greater score and before the first element whose
score is not greater (so earlier elements win ties, as in a stable sort). -/
def insertDesc (a : ScoredMovie) : List ScoredMovie → List ScoredMovie
  | [] => [a]
  | b :: t => if a.score < b.score then b :: insertDesc a t else a :: b :: t

/-- `Array.prototype.sort((a, b) => b.score - a.score)`: a stable sort by
score descending (JS `sort` is stable), realised as insertion sort. -/
def jsSortByScoreDesc : List ScoredMovie → List ScoredMovie
  | [] => []
  | a :: t => insertDesc a (jsSortByScoreDesc t)

/-- `Array.prototype.slice(0, end)` with JS semantics for a negative or
out-of-range `end`. -/
def jsSlice {α : Type} (l : List α) (endIdx : Int) : List α :=
  let len : Int := l.length
  let e : Int := if endIdx < 0 then max (len + endIdx) 0 else min endIdx len
  l.take e.toNat

/-- `getRecommendedMovies`: the collaborative-filtering recommendation
engine.  The outer `catch` swallows any error and returns `[]`. -/
def getRecommendedMovies (fl : Faults) (now : Nat) (userId : String)
    (lim : Int) : FS (List ScoredMovie) :=
  fsCatch
    (fsBind (ensureUserDocument fl now userId) fun _ =>
     fsBind (getWatchedMovies fl now userId) fun userWatchedMovies =>
     let watchedMovieIds := userWatchedMovies.map (·.id)
     let highlyRatedMovies := userWatchedMovies.filter isHighlyRated
     if highlyRatedMovies.isEmpty then fsPure []
     else
       fsBind (similarUsersLoop fl userId highlyRatedMovies []) fun similarUsers =>
       if similarUsers.isEmpty then fsPure []
       else
         fsBind (candidatesLoop fl watchedMovieIds similarUsers []) fun recMap =>
         fsPure (jsSlice (jsSortByScoreDesc (recMap.map (·.2))) lim))
    (fsPure [])

/-- The default `limit` is 10. -/
def getRecommendedMoviesDefault (fl : Faults) (now : Nat) (userId : String) :
    FS (List ScoredMovie) :=
  getRecommendedMovies fl now userId 10

/-! ## Pure mirrors of the fault-free engine

When no operation fails, each loop of `getRecommendedMovies` is a pure
function of the `ratings` collection.  The following definitions state that
function once; lemmas below prove the effectful loops compute them. -/

/-- The store with only the `ratings` collection (the recommendation index)
unavailable. -/
def ratingsDown : Faults := ⟨false, true⟩

/-- The documents of the `ratings` collection, in collection order. -/
def ratingDocs (db : DB) : List RatingDoc := db.ratings.map (·.2)

/-- Pure mirror of `similarUsersLoop` over a fixed list of rating
documents. -/
def similarUsersPure (rs : List RatingDoc) (userId : String) :
    List UserMovie → List String → List String
  | [], acc => acc
  | movie :: rest, acc =>
      similarUsersPure rs userId rest
        ((rs.filter (fun d => d.movieId == movie.id && 4 ≤ d.rating)).foldl
          (fun s d => if d.userId != userId then insertUnique s d.userId else s) acc)

/-- Pure mirror of `candidatesLoop` over a fixed list of rating documents. -/
def candidatesPure (rs : List RatingDoc) (watchedIds : List Int) :
    List String → List (Int × ScoredMovie) → List (Int × ScoredMovie)
  | [], acc => acc
  | u :: us, acc =>
      candidatesPure rs watchedIds us
        (accumulateDocs watchedIds acc (rs.filter (fun d => d.userId == u && 4 ≤ d.rating)))

/-- The candidate map a fault-free run of the engine builds for a user with
watched list `wm`: one entry per candidate movie id. -/
def candidateMap (rs : List RatingDoc) (u : String) (wm : List UserMovie) :
    List (Int × ScoredMovie) :=
  candidatesPure rs (wm.map (·.id)) (similarUsersPure rs u (wm.filter isHighlyRated) []) []

/-- What a fault-free run of `getRecommendedMovies` returns for a user whose
document holds watched list `wm`. -/
def recommendPure (rs : List RatingDoc) (u : String) (wm : List UserMovie)
    (lim : Int) : List ScoredMovie :=
  if (wm.filter isHighlyRated).isEmpty then []
  else if (similarUsersPure rs u (wm.filter isHighlyRated) []).isEmpty then []
  else jsSlice (jsSortByScoreDesc ((candidateMap rs u wm).map (·.2))) lim

/-- The total ≥4-star contribution of user `n` to movie `k` in the rating
documents `rs` (the sum of `n`'s ratings ≥ 4 on `k`; when the index holds at
most one document per (user, movie) pair this is `n`'s single ≥4-star rating
on `k`, or `0` when there is none). -/
def neighborContrib (rs : List RatingDoc) (n : String) (k : Int) : Int :=
  ((rs.filter (fun d => d.userId == n && 4 ≤ d.rating && d.movieId == k)).map
    (·.rating)).sum

/-- The score recorded for key `k` in a candidate map, when present. -/
def lookupScore (acc : List (Int × ScoredMovie)) (k : Int) : Option Int :=
  (mapGetAssoc acc k).map (·.score)

/-- The total rating mass a batch of documents contributes to movie `k`. -/
def dsScore (ds : List RatingDoc) (k : Int) : Int :=
  ((ds.filter (fun d_ => d_.movieId == k)).map (·.rating)).sum

/-- How one aggregation batch transforms the recorded score of movie `k`:
an existing score grows by the batch's mass; an absent entry appears exactly
when the batch mentions `k`. -/
def optPlus (o : Option Int) (ds : List RatingDoc) (k : Int) : Option Int :=
  match o, ds.filter (fun d_ => d_.movieId == k) with
  | some s, _ => some (s + dsScore ds k)
  | none, [] => none
  | none, _ => some (dsScore ds k)

/-- A well-formed `ratings` collection: every document's embedded display
object carries the document's own movie id (both writers of the collection
store it that way). -/
@[reducible] def WellFormedIndex (db : DB) : Prop :=
  ∀ d_ ∈ ratingDocs db, d_.movie.id = d_.movieId

/-- The `ratings` collection has no two documents under the same id, so —
the document id being `"{userId}_{movieId}"` — at most one rating per
(userId, movieId) pair. -/
@[reducible] def RatingsKeysNodup (db : DB) : Prop :=
  (db.ratings.map (·.1)).Nodup

/-- `x` preserves property `P` of the raw `ratings` collection on every
run (also on failing ones). -/
def PreservesRatings (P : List (String × RatingDoc) → Prop) {α : Type}
    (x : FS α) : Prop :=
  ∀ db : DB, P db.ratings → P ((x db).2).ratings

/-! ## Concrete states used by the scenario theorems -/

/-- Helper: a `UserMovie` with only id, title and rating set. -/
def um (i : Int) (t : String) (r : Int) : UserMovie :=
  { id := i, title := t, poster_path := none, release_date := "",
    overview := "", rating := some r, review := none, watchedDate := none }

/-- Helper: a `ratings`-collection document with the fields the engine
reads. -/
def rd (u : String) (i : Int) (t : String) (r : Int) : RatingDoc :=
  { userId := u, movieId := i, movie := { id := i, title := t, poster_path := none },
    rating := r, review := none, timestamp := 0 }

/-- The scenario's target user U, who rated A:5, B:3, C:4. -/
def scenarioUser : UserDoc :=
  { uid := "U", email := "", username := "User", createdAt := "0",
    watchedMovies := [um 1 "A" 5, um 2 "B" 3, um 3 "C" 4], watchlist := [] }

/-- The spec's concrete scenario: U rated A:5, B:3, C:4; V rated A:5, C:4,
D:5, E:4; W rated A:4, D:4.  Movie ids: A=1, B=2, C=3, D=4, E=5. -/
def scenarioDB : DB :=
  { users := [("U", scenarioUser)],
    ratings := [("U_1", rd "U" 1 "A" 5), ("U_2", rd "U" 2 "B" 3),
                ("U_3", rd "U" 3 "C" 4), ("V_1", rd "V" 1 "A" 5),
                ("W_1", rd "W" 1 "A" 4), ("V_3", rd "V" 3 "C" 4),
                ("V_4", rd "V" 4 "D" 5), ("V_5", rd "V" 5 "E" 4),
                ("W_4", rd "W" 4 "D" 4)] }

/-- The two recommendations the scenario expects: D with score 9, then E
with score 4. -/
def scenarioExpected : List ScoredMovie :=
  [{ id := 4, title := "D", poster_path := none, score := 9 },
   { id := 5, title := "E", poster_path := none, score := 4 }]

/-- A user document with empty watched/watchlist arrays. -/
def blankUser (u : String) : UserDoc :=
  { uid := u, email := "", username := "User", createdAt := "0",
    watchedMovies := [], watchlist := [] }

/-- Movie A as a catalog record. -/
def mvA : Movie :=
  { id := 1, title := "A", poster_path := none, release_date := "", overview := "" }

/-- A store holding one fresh user and no ratings. -/
def freshDB : DB := { users := [("u", blankUser "u")], ratings := [] }

/-- Rating the same movie twice through `addWatchedMovie` (first 3 stars,
then 5). -/
def rateTwiceDB : DB :=
  ((fsBind (addWatchedMovie noFaults 0 "u" mvA 3 none)
    (fun _ => addWatchedMovie noFaults 1 "u" mvA 5 none)) freshDB).2

/-- A store where user "u" has watched movie A (3 stars) while A is also
still on their watchlist. -/
def watchlistDB : DB :=
  { users := [("u", { blankUser "u" with
      watchedMovies := [um 1 "A" 3], watchlist := [mvA] })],
    ratings := [] }

/-- User "Z", who has rated only movie B at 3 stars (no high ratings). -/
def coldUser : UserDoc := { blankUser "Z" with watchedMovies := [um 2 "B" 3] }

/-- A store where user "Z" has rated only movie B at 3 stars (no high
ratings), over the scenario's ratings index. -/
def coldStartDB : DB :=
  { users := [("Z", coldUser)], ratings := scenarioDB.ratings }

/-- User "u"'s watched entry for movie A with an existing review. -/
def reviewedUM : UserMovie :=
  { id := 1, title := "A", poster_path := none, release_date := "",
    overview := "", rating := some 3, review := some "great",
    watchedDate := none }

/-- The mirrored `ratings` document for `reviewedUM`. -/
def reviewedRD : RatingDoc :=
  { userId := "u", movieId := 1,
    movie := { id := 1, title := "A", poster_path := none },
    rating := 3, review := some "great", timestamp := 0 }

/-- User "u" with the reviewed watched entry. -/
def reviewedUser : UserDoc := { blankUser "u" with watchedMovies := [reviewedUM] }

/-- A store where user "u" has watched movie A with review "great", mirrored
in the `ratings` collection. -/
def reviewedDB : DB :=
  { users := [("u", reviewedUser)], ratings := [("u_1", reviewedRD)] }

/-! ## Evaluation lemmas for fault-free primitives -/

theorem fsGetUser_ok {fl : Faults} (h : fl.users = false) (u : String)
    (db : DB) : fsGetUser fl u db = (Except.ok (lookupAssoc db.users u), db) := by
  simp [fsGetUser, h]

theorem fsSetUser_ok {fl : Faults} (h : fl.users = false) (u : String)
    (d : UserDoc) (db : DB) :
    fsSetUser fl u d db =
      (Except.ok (), { db with users := setAssoc db.users u d }) := by
  simp [fsSetUser, h]

theorem fsUpdateUser_ok {fl : Faults} (h : fl.users = false) {u : String}
    {db : DB} {d : UserDoc} (hu : lookupAssoc db.users u = some d)
    (f : UserDoc → UserDoc) :
    fsUpdateUser fl u f db =
      (Except.ok (), { db with users := updateAssoc db.users u f }) := by
  simp [fsUpdateUser, h, hu]

theorem fsQueryRatings_ok {fl : Faults} (h : fl.ratings = false)
    (p : RatingDoc → Bool) (db : DB) :
    fsQueryRatings fl p db = (Except.ok ((ratingDocs db).filter p), db) := by
  simp [fsQueryRatings, h, ratingDocs]

theorem fsGetRating_ok {fl : Faults} (h : fl.ratings = false) (k : String)
    (db : DB) : fsGetRating fl k db = (Except.ok (lookupAssoc db.ratings k), db) := by
  simp [fsGetRating, h]

theorem fsSetRating_ok {fl : Faults} (h : fl.ratings = false) (k : String)
    (d : RatingDoc) (db : DB) :
    fsSetRating fl k d db =
      (Except.ok (), { db with ratings := setAssoc db.ratings k d }) := by
  simp [fsSetRating, h]

theorem fsUpdateRating_ok {fl : Faults} (h : fl.ratings = false) {k : String}
    {db : DB} {d : RatingDoc} (hk : lookupAssoc db.ratings k = some d)
    (f : RatingDoc → RatingDoc) :
    fsUpdateRating fl k f db =
      (Except.ok (), { db with ratings := updateAssoc db.ratings k f }) := by
  simp [fsUpdateRating, h, hk]

/-! ## Behavior of the store functions on a healthy `users` collection -/

theorem ensureUserDocument_exists {fl : Faults} (h : fl.users = false)
    {db : DB} {u : String} {d : UserDoc}
    (hu : lookupAssoc db.users u = some d) (now : Nat) :
    ensureUserDocument fl now u db = (Except.ok true, db) := by
  simp [ensureUserDocument, fsCatch, fsBind, fsGetUser_ok h, hu, fsPure]

theorem ensureUserDocument_missing {fl : Faults} (h : fl.users = false)
    {db : DB} {u : String} (hu : lookupAssoc db.users u = none) (now : Nat) :
    ensureUserDocument fl now u db =
      (Except.ok true,
       { db with users := setAssoc db.users u (initialUserDoc u now) }) := by
  simp [ensureUserDocument, fsCatch, fsBind, fsGetUser_ok h, hu,
    fsSetUser_ok h, fsPure]

theorem getWatchedMovies_exists {fl : Faults} (h : fl.users = false)
    {db : DB} {u : String} {d : UserDoc}
    (hu : lookupAssoc db.users u = some d) (now : Nat) :
    getWatchedMovies fl now u db = (Except.ok d.watchedMovies, db) := by
  simp [getWatchedMovies, fsCatch, fsBind, ensureUserDocument_exists h hu,
    fsGetUser_ok h, hu, fsPure]

/-! ## The fault-free engine loops compute their pure mirrors -/

theorem similarUsersLoop_ok {fl : Faults} (h : fl.ratings = false)
    (u : String) : ∀ (ms : List UserMovie) (acc : List String) (db : DB),
    similarUsersLoop fl u ms acc db =
      (Except.ok (similarUsersPure (ratingDocs db) u ms acc), db)
  | [], acc, db => by simp [similarUsersLoop, similarUsersPure, fsPure]
  | m :: rest, acc, db => by
      simp [similarUsersLoop, similarUsersPure, fsBind, fsQueryRatings_ok h,
        similarUsersLoop_ok h u rest _ db]

theorem candidatesLoop_ok {fl : Faults} (h : fl.ratings = false)
    (w : List Int) : ∀ (us : List String) (acc : List (Int × ScoredMovie)) (db : DB),
    candidatesLoop fl w us acc db =
      (Except.ok (candidatesPure (ratingDocs db) w us acc), db)
  | [], acc, db => by simp [candidatesLoop, candidatesPure, fsPure]
  | n :: us, acc, db => by
      simp [candidatesLoop, candidatesPure, fsBind, fsQueryRatings_ok h,
        candidatesLoop_ok h w us _ db]

/-- A fault-free `getRecommendedMovies` run for an existing user is the pure
function `recommendPure` of the ratings collection, and leaves the store
untouched. -/
theorem getRecommendedMovies_ok {db : DB} {u : String} {d : UserDoc}
    (hu : lookupAssoc db.users u = some d) (now : Nat) (lim : Int) :
    getRecommendedMovies noFaults now u lim db =
      (Except.ok (recommendPure (ratingDocs db) u d.watchedMovies lim), db) := by
  have h1 : noFaults.users = false := rfl
  have h2 : noFaults.ratings = false := rfl
  unfold getRecommendedMovies recommendPure
  by_cases hL : (d.watchedMovies.filter isHighlyRated).isEmpty
  · simp [fsCatch, fsBind, ensureUserDocument_exists h1 hu,
      getWatchedMovies_exists h1 hu, hL, fsPure]
  · by_cases hN : similarUsersPure (ratingDocs db) u
        (d.watchedMovies.filter isHighlyRated) [] = []
    · simp [fsCatch, fsBind, ensureUserDocument_exists h1 hu,
        getWatchedMovies_exists h1 hu, hL, hN, similarUsersLoop_ok h2, fsPure]
    · simp [fsCatch, fsBind, ensureUserDocument_exists h1 hu,
        getWatchedMovies_exists h1 hu, hL, hN, similarUsersLoop_ok h2,
        candidatesLoop_ok h2, candidateMap, fsPure]

/-! ## The stable descending sort -/

open List

theorem mem_insertDesc {a x : ScoredMovie} {l : List ScoredMovie} :
    x ∈ insertDesc a l ↔ x = a ∨ x ∈ l := by
  induction l with
  | nil => simp [insertDesc]
  | cons b t ih =>
      by_cases hc : a.score < b.score
      · simp only [insertDesc, if_pos hc, List.mem_cons, ih]
        tauto
      · simp only [insertDesc, if_neg hc, List.mem_cons]

theorem insertDesc_perm (a : ScoredMovie) (l : List ScoredMovie) :
    insertDesc a l ~ a :: l := by
  induction l with
  | nil => simp [insertDesc]
  | cons b t ih =>
      by_cases hc : a.score < b.score
      · simp only [insertDesc, if_pos hc]
        exact (ih.cons b).trans (List.Perm.swap a b t)
      · simp [insertDesc, hc]

theorem sortDesc_perm (l : List ScoredMovie) : jsSortByScoreDesc l ~ l := by
  induction l with
  | nil => simp [jsSortByScoreDesc]
  | cons a t ih => exact (insertDesc_perm a _).trans (ih.cons a)

theorem pairwise_insertDesc {a : ScoredMovie} {l : List ScoredMovie}
    (h : l.Pairwise (fun x y => y.score ≤ x.score)) :
    (insertDesc a l).Pairwise (fun x y => y.score ≤ x.score) := by
  induction l with
  | nil => simp [insertDesc]
  | cons b t ih =>
      rcases List.pairwise_cons.mp h with ⟨hb, ht⟩
      by_cases hc : a.score < b.score
      · simp only [insertDesc, if_pos hc]
        refine List.Pairwise.cons ?_ (ih ht)
        intro x hx
        rcases mem_insertDesc.mp hx with rfl | hx
        · exact le_of_lt hc
        · exact hb x hx
      · simp only [insertDesc, if_neg hc]
        push_neg at hc
        refine List.Pairwise.cons ?_ h
        intro x hx
        rcases List.mem_cons.mp hx with rfl | hx
        · exact hc
        · exact le_trans (hb x hx) hc

theorem sortDesc_sorted :
    ∀ l : List ScoredMovie,
      (jsSortByScoreDesc l).Pairwise (fun x y => y.score ≤ x.score)
  | [] => by simp [jsSortByScoreDesc]
  | a :: t => pairwise_insertDesc (sortDesc_sorted t)

theorem sublist_insertDesc (a : ScoredMovie) :
    ∀ l : List ScoredMovie, l <+ insertDesc a l
  | [] => List.nil_sublist _
  | b :: t => by
      by_cases hc : a.score < b.score
      · simp only [insertDesc, if_pos hc]
        exact (sublist_insertDesc a t).cons₂ b
      · simp only [insertDesc, if_neg hc]
        exact (List.Sublist.refl (b :: t)).cons a

theorem pair_sublist_insertDesc {a y : ScoredMovie} {l : List ScoredMovie}
    (hy : y ∈ l) (hsc : y.score ≤ a.score) : [a, y] <+ insertDesc a l := by
  induction l with
  | nil => cases hy
  | cons b t ih =>
      by_cases hc : a.score < b.score
      · have hyb : y ∈ t := by
          rcases List.mem_cons.mp hy with rfl | h
          · exact absurd (lt_of_le_of_lt hsc hc) (lt_irrefl _)
          · exact h
        simp only [insertDesc, if_pos hc]
        exact (ih hyb).cons b
      · simp only [insertDesc, if_neg hc]
        exact (List.singleton_sublist.mpr hy).cons₂ a

/-- Stability of the sort: a pair already in weakly decreasing score order
keeps its relative order in the sorted list. -/
theorem pair_sublist_sortDesc {x y : ScoredMovie} :
    ∀ {l : List ScoredMovie}, [x, y] <+ l → y.score ≤ x.score →
      [x, y] <+ jsSortByScoreDesc l := by
  intro l
  induction l with
  | nil => intro h hsc; cases h
  | cons a t ih =>
      intro h hsc
      cases h with
      | cons _ h' => exact (ih h' hsc).trans (sublist_insertDesc a _)
      | cons₂ _ h' =>
          have hy : y ∈ jsSortByScoreDesc t :=
            ((sortDesc_perm t).mem_iff).mpr (List.singleton_sublist.mp h')
          exact pair_sublist_insertDesc hy hsc

/-! ## `jsSlice` lemmas -/

theorem jsSlice_sublist {α : Type} (l : List α) (e : Int) : jsSlice l e <+ l :=
  List.take_sublist _ _

theorem jsSlice_zero {α : Type} (l : List α) : jsSlice l 0 = [] := by
  have h : (if (0 : Int) < 0 then max ((l.length : Int) + 0) 0
      else min (0 : Int) (l.length : Int)) = 0 := by omega
  simp [jsSlice, h]

theorem jsSlice_length_le {α : Type} (l : List α) {e : Int} (he : 0 ≤ e) :
    ((jsSlice l e).length : Int) ≤ e := by
  have h : (if e < 0 then max ((l.length : Int) + e) 0
      else min e (l.length : Int)) = min e (l.length : Int) := by omega
  simp only [jsSlice, h, List.length_take]
  omega

/-! ## The candidate map: lookup, set and keys -/

theorem mapGetAssoc_set_self (acc : List (Int × ScoredMovie)) (k : Int)
    (v : ScoredMovie) : mapGetAssoc (mapSetAssoc acc k v) k = some v := by
  induction acc with
  | nil => simp [mapSetAssoc, mapGetAssoc]
  | cons p t ih =>
      by_cases hp : p.1 = k
      · simp [mapSetAssoc, mapGetAssoc, hp]
      · simp [mapSetAssoc, mapGetAssoc, hp, ih]

theorem mapGetAssoc_set_ne {k k' : Int} (h : k' ≠ k)
    (acc : List (Int × ScoredMovie)) (v : ScoredMovie) :
    mapGetAssoc (mapSetAssoc acc k v) k' = mapGetAssoc acc k' := by
  induction acc with
  | nil => simp [mapSetAssoc, mapGetAssoc, h, Ne.symm h]
  | cons p t ih =>
      by_cases hp : p.1 = k
      · simp [mapSetAssoc, mapGetAssoc, hp, Ne.symm h, h]
      · by_cases hq : p.1 = k'
        · simp [mapSetAssoc, mapGetAssoc, hp, hq, h, Ne.symm h]
        · simp [mapSetAssoc, mapGetAssoc, hp, hq, ih]

theorem mapGetAssoc_append_self {acc : List (Int × ScoredMovie)} {k : Int}
    (h : mapGetAssoc acc k = none) (v : ScoredMovie) :
    mapGetAssoc (acc ++ [(k, v)]) k = some v := by
  induction acc with
  | nil => simp [mapGetAssoc]
  | cons p t ih =>
      by_cases hp : p.1 = k
      · simp [mapGetAssoc, hp] at h
      · simp [mapGetAssoc, hp] at h ⊢
        exact ih h

theorem mapGetAssoc_append_ne {k k' : Int} (h : k' ≠ k)
    (acc : List (Int × ScoredMovie)) (v : ScoredMovie) :
    mapGetAssoc (acc ++ [(k, v)]) k' = mapGetAssoc acc k' := by
  induction acc with
  | nil => simp [mapGetAssoc, h, Ne.symm h]
  | cons p t ih =>
      by_cases hp : p.1 = k'
      · simp [mapGetAssoc, hp]
      · simp [mapGetAssoc, hp, ih]

theorem mem_mapSetAssoc {acc : List (Int × ScoredMovie)} {k : Int}
    {v : ScoredMovie} : ∀ p ∈ mapSetAssoc acc k v, p = (k, v) ∨ p ∈ acc := by
  induction acc with
  | nil => simp [mapSetAssoc]
  | cons q t ih =>
      intro p hp
      by_cases hq : q.1 = k
      · simp only [mapSetAssoc, hq, beq_self_eq_true, if_true] at hp
        rcases List.mem_cons.mp hp with rfl | hp
        · exact Or.inl rfl
        · exact Or.inr (List.mem_cons_of_mem _ hp)
      · simp only [mapSetAssoc, beq_eq_false_iff_ne.mpr hq, Bool.false_eq_true,
          if_false] at hp
        rcases List.mem_cons.mp hp with rfl | hp
        · exact Or.inr (List.mem_cons_self _ _)
        · rcases ih p hp with h' | h'
          · exact Or.inl h'
          · exact Or.inr (List.mem_cons_of_mem _ h')

theorem mapGetAssoc_mem {acc : List (Int × ScoredMovie)} {k : Int}
    {m : ScoredMovie} (h : mapGetAssoc acc k = some m) : (k, m) ∈ acc := by
  induction acc with
  | nil => simp [mapGetAssoc] at h
  | cons p t ih =>
      by_cases hp : p.1 = k
      · simp only [mapGetAssoc, hp, beq_self_eq_true, if_true,
          Option.some.injEq] at h
        have hpk : p = (k, m) := by
          cases p with
          | mk a b => simp_all
        exact hpk ▸ List.mem_cons_self _ _
      · simp only [mapGetAssoc, beq_eq_false_iff_ne.mpr hp, Bool.false_eq_true,
          if_false] at h
        exact List.mem_cons_of_mem _ (ih h)

theorem keys_mapSetAssoc {acc : List (Int × ScoredMovie)} {k : Int}
    {m : ScoredMovie} (h : mapGetAssoc acc k = some m) (v : ScoredMovie) :
    (mapSetAssoc acc k v).map (·.1) = acc.map (·.1) := by
  induction acc with
  | nil => simp [mapGetAssoc] at h
  | cons p t ih =>
      by_cases hp : p.1 = k
      · simp [mapSetAssoc, hp]
      · simp only [mapGetAssoc, beq_eq_false_iff_ne.mpr hp, Bool.false_eq_true,
          if_false] at h
        simp [mapSetAssoc, hp, ih h]

theorem mapGetAssoc_none_iff {acc : List (Int × ScoredMovie)} {k : Int} :
    mapGetAssoc acc k = none ↔ k ∉ acc.map (·.1) := by
  induction acc with
  | nil => simp [mapGetAssoc]
  | cons p t ih =>
      by_cases hp : p.1 = k
      · simp [mapGetAssoc, hp]
      · simp [mapGetAssoc, hp, ih, Ne.symm hp]

/-! ## Scores accumulated by `accumulateDocs` -/

theorem optPlus_cons_ne {d_ : RatingDoc} {ds : List RatingDoc} {k : Int}
    (h : d_.movieId ≠ k) (o : Option Int) :
    optPlus o (d_ :: ds) k = optPlus o ds k := by
  cases o <;> simp [optPlus, dsScore, List.filter_cons, h]

theorem accumulateDocs_lookupScore {w : List Int} {k : Int} (hk : k ∉ w) :
    ∀ (ds : List RatingDoc) (acc : List (Int × ScoredMovie)),
      lookupScore (accumulateDocs w acc ds) k = optPlus (lookupScore acc k) ds k
  | [], acc => by
      cases h : lookupScore acc k <;> simp [accumulateDocs, optPlus, dsScore, h]
  | d :: ds, acc => by
      by_cases hw : w.contains d.movieId = true
      · have hne : d.movieId ≠ k := by
          intro he
          rw [he] at hw
          simp at hw
          exact hk hw
        simp only [accumulateDocs, hw, if_true]
        rw [accumulateDocs_lookupScore hk ds acc, optPlus_cons_ne hne]
      · by_cases hdk : d.movieId = k
        · cases hacc : mapGetAssoc acc d.movieId with
          | some m =>
              simp only [accumulateDocs, hw, Bool.false_eq_true, if_false, hacc]
              rw [accumulateDocs_lookupScore hk ds _]
              subst hdk
              rw [show lookupScore (mapSetAssoc acc d.movieId
                    { m with score := m.score + d.rating }) d.movieId
                  = some (m.score + d.rating) by
                simp [lookupScore, mapGetAssoc_set_self]]
              simp only [lookupScore, hacc, Option.map_some]
              simp only [optPlus, dsScore, List.filter_cons, beq_self_eq_true,
                if_true, List.map_cons, List.sum_cons]
              cases hfil : ds.filter (fun x => x.movieId == d.movieId) <;>
                simp [dsScore, hfil]
              ring
          | none =>
              simp only [accumulateDocs, hw, Bool.false_eq_true, if_false, hacc]
              rw [accumulateDocs_lookupScore hk ds _]
              subst hdk
              have h0 : lookupScore acc d.movieId = none := by
                simp [lookupScore, hacc]
              rw [show lookupScore (acc ++ [(d.movieId,
                    { id := d.movie.id, title := d.movie.title,
                      poster_path := d.movie.poster_path,
                      score := d.rating })]) d.movieId
                  = some d.rating by
                simp [lookupScore, mapGetAssoc_append_self hacc]]
              simp only [h0, optPlus, dsScore, List.filter_cons,
                beq_self_eq_true, if_true, List.map_cons, List.sum_cons]
        · have hkd : k ≠ d.movieId := fun he => hdk he.symm
          cases hacc : mapGetAssoc acc d.movieId with
          | some m =>
              simp only [accumulateDocs, hw, Bool.false_eq_true, if_false, hacc]
              rw [accumulateDocs_lookupScore hk ds _]
              rw [show lookupScore (mapSetAssoc acc d.movieId
                    { m with score := m.score + d.rating }) k
                  = lookupScore acc k by
                simp [lookupScore, mapGetAssoc_set_ne hkd]]
              rw [optPlus_cons_ne hdk]
          | none =>
              simp only [accumulateDocs, hw, Bool.false_eq_true, if_false, hacc]
              rw [accumulateDocs_lookupScore hk ds _]
              rw [show lookupScore (acc ++ [(d.movieId,
                    { id := d.movie.id, title := d.movie.title,
                      poster_path := d.movie.poster_path,
                      score := d.rating })]) k
                  = lookupScore acc k by
                simp [lookupScore, mapGetAssoc_append_ne hkd]]
              rw [optPlus_cons_ne hdk]

theorem dsScore_filter (rs : List RatingDoc) (n : String) (k : Int) :
    dsScore (rs.filter (fun d_ => d_.userId == n && 4 ≤ d_.rating)) k =
      neighborContrib rs n k := by
  simp [dsScore, neighborContrib, List.filter_filter, Bool.and_assoc,
    Bool.and_comm, Bool.and_left_comm]

theorem candidatesPure_lookupScore_some {rs : List RatingDoc} {w : List Int}
    {k : Int} (hk : k ∉ w) :
    ∀ (us : List String) (acc : List (Int × ScoredMovie)) (s : Int),
      lookupScore acc k = some s →
      lookupScore (candidatesPure rs w us acc) k =
        some (s + (us.map (fun n => neighborContrib rs n k)).sum)
  | [], acc, s, h => by simpa [candidatesPure] using h
  | n :: us, acc, s, h => by
      have h1 : lookupScore (accumulateDocs w acc
          (rs.filter (fun d_ => d_.userId == n && 4 ≤ d_.rating))) k =
          some (s + neighborContrib rs n k) := by
        rw [accumulateDocs_lookupScore hk, h]
        simp [optPlus, dsScore_filter]
      simp only [candidatesPure]
      rw [candidatesPure_lookupScore_some hk us _ _ h1]
      simp only [List.map_cons, List.sum_cons, Option.some.injEq]
      ring

theorem candidatesPure_lookupScore_none {rs : List RatingDoc} {w : List Int}
    {k : Int} (hk : k ∉ w) :
    ∀ (us : List String) (acc : List (Int × ScoredMovie)),
      lookupScore acc k = none →
      lookupScore (candidatesPure rs w us acc) k = none ∨
      lookupScore (candidatesPure rs w us acc) k =
        some ((us.map (fun n => neighborContrib rs n k)).sum)
  | [], acc, h => Or.inl (by simpa [candidatesPure] using h)
  | n :: us, acc, h => by
      have h1 := accumulateDocs_lookupScore hk
        (rs.filter (fun d_ => d_.userId == n && 4 ≤ d_.rating)) acc
      rw [h] at h1
      by_cases hfil : (rs.filter (fun d_ => d_.userId == n && 4 ≤ d_.rating)).filter
          (fun d_ => d_.movieId == k) = []
      · have hz : neighborContrib rs n k = 0 := by
          rw [← dsScore_filter]
          simp [dsScore, hfil]
        rw [show optPlus none (rs.filter (fun d_ => d_.userId == n && 4 ≤ d_.rating)) k
            = none by simp [optPlus, hfil]] at h1
        rcases candidatesPure_lookupScore_none hk us _ h1 with h2 | h2
        · exact Or.inl (by simpa [candidatesPure] using h2)
        · refine Or.inr ?_
          simp only [candidatesPure]
          rw [h2]
          simp [hz]
      · have h1' : lookupScore (accumulateDocs w acc
            (rs.filter (fun d_ => d_.userId == n && 4 ≤ d_.rating))) k =
            some (neighborContrib rs n k) := by
          rw [h1, ← dsScore_filter]
          cases hc : (rs.filter (fun d_ => d_.userId == n && 4 ≤ d_.rating)).filter
              (fun d_ => d_.movieId == k) with
          | nil => exact absurd hc hfil
          | cons a l => simp [optPlus, hc]
        refine Or.inr ?_
        simp only [candidatesPure]
        rw [candidatesPure_lookupScore_some hk us _ _ h1']
        simp

/-! ## Structural invariants of the candidate map -/

theorem accumulateDocs_key_not_watched {w : List Int} :
    ∀ (ds : List RatingDoc) (acc : List (Int × ScoredMovie)),
      (∀ p ∈ acc, p.1 ∉ w) → ∀ p ∈ accumulateDocs w acc ds, p.1 ∉ w
  | [], acc, hacc => by simpa [accumulateDocs] using hacc
  | d :: ds, acc, hacc => by
      by_cases hw : w.contains d.movieId = true
      · simp only [accumulateDocs, hw, if_true]
        exact accumulateDocs_key_not_watched ds acc hacc
      · have hdw : d.movieId ∉ w := by simpa using hw
        cases hacc' : mapGetAssoc acc d.movieId with
        | some m =>
            simp only [accumulateDocs, hw, Bool.false_eq_true, if_false, hacc']
            refine accumulateDocs_key_not_watched ds _ ?_
            intro p hp
            rcases mem_mapSetAssoc p hp with rfl | hp
            · simpa using hdw
            · exact hacc p hp
        | none =>
            simp only [accumulateDocs, hw, Bool.false_eq_true, if_false, hacc']
            refine accumulateDocs_key_not_watched ds _ ?_
            intro p hp
            rcases List.mem_append.mp hp with hp | hp
            · exact hacc p hp
            · rcases List.mem_singleton.mp hp with rfl
              simpa using hdw

theorem accumulateDocs_id_eq_key {w : List Int} :
    ∀ (ds : List RatingDoc) (acc : List (Int × ScoredMovie)),
      (∀ d_ ∈ ds, d_.movie.id = d_.movieId) →
      (∀ p ∈ acc, p.2.id = p.1) → ∀ p ∈ accumulateDocs w acc ds, p.2.id = p.1
  | [], acc, _, hacc => by simpa [accumulateDocs] using hacc
  | d :: ds, acc, hds, hacc => by
      have hds' : ∀ d_ ∈ ds, d_.movie.id = d_.movieId :=
        fun d_ hd_ => hds d_ (List.mem_cons_of_mem _ hd_)
      by_cases hw : w.contains d.movieId = true
      · simp only [accumulateDocs, hw, if_true]
        exact accumulateDocs_id_eq_key ds acc hds' hacc
      · cases hacc' : mapGetAssoc acc d.movieId with
        | some m =>
            simp only [accumulateDocs, hw, Bool.false_eq_true, if_false, hacc']
            refine accumulateDocs_id_eq_key ds _ hds' ?_
            intro p hp
            rcases mem_mapSetAssoc p hp with rfl | hp
            · have : m.id = d.movieId := hacc _ (mapGetAssoc_mem hacc')
              simpa using this
            · exact hacc p hp
        | none =>
            simp only [accumulateDocs, hw, Bool.false_eq_true, if_false, hacc']
            refine accumulateDocs_id_eq_key ds _ hds' ?_
            intro p hp
            rcases List.mem_append.mp hp with hp | hp
            · exact hacc p hp
            · rcases List.mem_singleton.mp hp with rfl
              simpa using hds d (List.mem_cons_self _ _)

theorem accumulateDocs_keys_nodup {w : List Int} :
    ∀ (ds : List RatingDoc) (acc : List (Int × ScoredMovie)),
      (acc.map (·.1)).Nodup → ((accumulateDocs w acc ds).map (·.1)).Nodup
  | [], acc, hacc => by simpa [accumulateDocs] using hacc
  | d :: ds, acc, hacc => by
      by_cases hw : w.contains d.movieId = true
      · simp only [accumulateDocs, hw, if_true]
        exact accumulateDocs_keys_nodup ds acc hacc
      · cases hacc' : mapGetAssoc acc d.movieId with
        | some m =>
            simp only [accumulateDocs, hw, Bool.false_eq_true, if_false, hacc']
            refine accumulateDocs_keys_nodup ds _ ?_
            rw [keys_mapSetAssoc hacc']
            exact hacc
        | none =>
            simp only [accumulateDocs, hw, Bool.false_eq_true, if_false, hacc']
            refine accumulateDocs_keys_nodup ds _ ?_
            have hnk : d.movieId ∉ acc.map (·.1) := mapGetAssoc_none_iff.mp hacc'
            simp only [List.map_append, List.map_cons, List.map_nil]
            simp [List.nodup_append, hacc, hnk]

theorem mapGetAssoc_of_mem_nodup :
    ∀ {acc : List (Int × ScoredMovie)}, (acc.map (·.1)).Nodup →
      ∀ {p : Int × ScoredMovie}, p ∈ acc → mapGetAssoc acc p.1 = some p.2 := by
  intro acc
  induction acc with
  | nil => intro _ p hp; cases hp
  | cons q t ih =>
      intro hnd p hp
      rcases List.mem_cons.mp hp with rfl | hp
      · simp [mapGetAssoc]
      · have hq : q.1 ∉ t.map (·.1) := (List.nodup_cons.mp hnd).1
        have hne : q.1 ≠ p.1 := by
          intro he
          exact hq (he ▸ List.mem_map_of_mem (·.1) hp)
        simp only [mapGetAssoc, beq_eq_false_iff_ne.mpr hne, Bool.false_eq_true,
          if_false]
        exact ih (List.nodup_cons.mp hnd).2 hp

/-! ## Membership in the similar-users set -/

theorem mem_insertUnique {l : List String} {x n : String} :
    n ∈ insertUnique l x ↔ n ∈ l ∨ n = x := by
  by_cases h : l.contains x = true
  · have hx : x ∈ l := by simpa using h
    simp only [insertUnique, h, if_true]
    constructor
    · exact Or.inl
    · rintro (h' | rfl)
      · exact h'
      · exact hx
  · have hx : x ∉ l := by simpa using h
    simp [insertUnique, h, hx]

theorem mem_foldl_addRater {u : String} :
    ∀ (docs : List RatingDoc) (acc : List String) (n : String),
      n ∈ docs.foldl
        (fun s d_ => if d_.userId != u then insertUnique s d_.userId else s) acc ↔
      n ∈ acc ∨ (n ≠ u ∧ ∃ d_ ∈ docs, d_.userId = n)
  | [], acc, n => by simp
  | d :: docs, acc, n => by
      simp only [List.foldl_cons]
      rw [mem_foldl_addRater docs _ n]
      by_cases hd : d.userId = u
      · simp only [hd, bne_self_eq_false, Bool.false_eq_true, if_false,
          List.mem_cons]
        constructor
        · rintro (h | ⟨hnu, d_, hd_, hn⟩)
          · exact Or.inl h
          · exact Or.inr ⟨hnu, d_, Or.inr hd_, hn⟩
        · rintro (h | ⟨hnu, d_, hd_ | hd_, hn⟩)
          · exact Or.inl h
          · subst hd_
            exact absurd (hn ▸ hd) hnu
          · exact Or.inr ⟨hnu, d_, hd_, hn⟩
      · have hbd : (d.userId != u) = true := by simp [hd]
        simp only [hbd, if_true, mem_insertUnique, List.mem_cons]
        constructor
        · rintro ((h | rfl) | ⟨hnu, d_, hd_, hn⟩)
          · exact Or.inl h
          · exact Or.inr ⟨fun he => hd he, d, Or.inl rfl, rfl⟩
          · exact Or.inr ⟨hnu, d_, Or.inr hd_, hn⟩
        · rintro (h | ⟨hnu, d_, hd_ | hd_, hn⟩)
          · exact Or.inl (Or.inl h)
          · exact Or.inl (Or.inr (hd_ ▸ hn.symm))
          · exact Or.inr ⟨hnu, d_, hd_, hn⟩

theorem mem_similarUsersPure {rs : List RatingDoc} {u : String} :
    ∀ (ms : List UserMovie) (acc : List String) (n : String),
      n ∈ similarUsersPure rs u ms acc ↔
      n ∈ acc ∨ (n ≠ u ∧ ∃ m ∈ ms, ∃ d_ ∈ rs,
        d_.userId = n ∧ d_.movieId = m.id ∧ 4 ≤ d_.rating)
  | [], acc, n => by simp [similarUsersPure]
  | m :: ms, acc, n => by
      simp only [similarUsersPure]
      rw [mem_similarUsersPure ms _ n, mem_foldl_addRater]
      constructor
      · rintro ((h | ⟨hnu, d_, hd_, hn⟩) | ⟨hnu, m', hm', d_, hd_, hn, hmv, hr⟩)
        · exact Or.inl h
        · rcases List.mem_filter.mp hd_ with ⟨hdrs, hcond⟩
          rcases Bool.and_eq_true_iff.mp hcond with ⟨hmv, hr⟩
          exact Or.inr ⟨hnu, m, List.mem_cons_self _ _, d_, hdrs, hn,
            by simpa using hmv, by simpa using hr⟩
        · exact Or.inr ⟨hnu, m', List.mem_cons_of_mem _ hm', d_, hd_, hn, hmv, hr⟩
      · rintro (h | ⟨hnu, m', hm', d_, hd_, hn, hmv, hr⟩)
        · exact Or.inl (Or.inl h)
        · rcases List.mem_cons.mp hm' with rfl | hm'
          · refine Or.inl (Or.inr ⟨hnu, d_, ?_, hn⟩)
            refine List.mem_filter.mpr ⟨hd_, ?_⟩
            simp [hmv, hr]
          · exact Or.inr ⟨hnu, m', hm', d_, hd_, hn, hmv, hr⟩

/-! ## The invariants lifted to `candidatesPure` and `candidateMap` -/

theorem candidatesPure_key_not_watched {rs : List RatingDoc} {w : List Int} :
    ∀ (us : List String) (acc : List (Int × ScoredMovie)),
      (∀ p ∈ acc, p.1 ∉ w) → ∀ p ∈ candidatesPure rs w us acc, p.1 ∉ w
  | [], acc, hacc => by simpa [candidatesPure] using hacc
  | n :: us, acc, hacc => by
      simp only [candidatesPure]
      exact candidatesPure_key_not_watched us _
        (accumulateDocs_key_not_watched _ acc hacc)

theorem candidatesPure_id_eq_key {rs : List RatingDoc} {w : List Int}
    (hrs : ∀ d_ ∈ rs, d_.movie.id = d_.movieId) :
    ∀ (us : List String) (acc : List (Int × ScoredMovie)),
      (∀ p ∈ acc, p.2.id = p.1) → ∀ p ∈ candidatesPure rs w us acc, p.2.id = p.1
  | [], acc, hacc => by simpa [candidatesPure] using hacc
  | n :: us, acc, hacc => by
      simp only [candidatesPure]
      refine candidatesPure_id_eq_key hrs us _
        (accumulateDocs_id_eq_key _ acc ?_ hacc)
      intro d_ hd_
      exact hrs d_ (List.mem_filter.mp hd_).1

theorem candidatesPure_keys_nodup {rs : List RatingDoc} {w : List Int} :
    ∀ (us : List String) (acc : List (Int × ScoredMovie)),
      (acc.map (·.1)).Nodup → ((candidatesPure rs w us acc).map (·.1)).Nodup
  | [], acc, hacc => by simpa [candidatesPure] using hacc
  | n :: us, acc, hacc => by
      simp only [candidatesPure]
      exact candidatesPure_keys_nodup us _ (accumulateDocs_keys_nodup _ acc hacc)

/-- Every entry of the candidate map carries the key as its display id, is
not a watched movie, and scores the sum of the similar users'
contributions. -/
theorem candidateMap_entry_props {rs : List RatingDoc} {u : String}
    {wm : List UserMovie} (hwf : ∀ d_ ∈ rs, d_.movie.id = d_.movieId) :
    ∀ p ∈ candidateMap rs u wm,
      p.2.id = p.1 ∧ p.1 ∉ wm.map (·.id) ∧
      p.2.score = ((similarUsersPure rs u (wm.filter isHighlyRated) []).map
        (fun n => neighborContrib rs n p.1)).sum := by
  intro p hp
  have hid : p.2.id = p.1 :=
    candidatesPure_id_eq_key hwf _ [] (by intro q hq; cases hq) p hp
  have hkw : p.1 ∉ wm.map (·.id) :=
    candidatesPure_key_not_watched _ [] (by intro q hq; cases hq) p hp
  have hnd : ((candidateMap rs u wm).map (·.1)).Nodup :=
    candidatesPure_keys_nodup _ [] (by simp)
  have hsc : lookupScore (candidateMap rs u wm) p.1 = some p.2.score := by
    rw [lookupScore, mapGetAssoc_of_mem_nodup hnd hp]
    rfl
  rcases candidatesPure_lookupScore_none hkw
      (similarUsersPure rs u (wm.filter isHighlyRated) []) []
      (by simp [lookupScore, mapGetAssoc]) with h | h
  · rw [candidateMap] at hsc
    rw [h] at hsc
    cases hsc
  · rw [candidateMap] at hsc
    rw [h] at hsc
    exact ⟨hid, hkw, by injection hsc with h'; exact h'.symm⟩

/-! ## Keys of the string-keyed collections -/

theorem lookupAssoc_setAssoc_self {α : Type} (l : List (String × α))
    (k : String) (v : α) : lookupAssoc (setAssoc l k v) k = some v := by
  induction l with
  | nil => simp [setAssoc, lookupAssoc]
  | cons p t ih =>
      by_cases hp : p.1 = k
      · simp [setAssoc, lookupAssoc, hp]
      · simp [setAssoc, lookupAssoc, hp, ih]

theorem lookupAssoc_updateAssoc_self {α : Type} {l : List (String × α)}
    {k : String} {d : α} (h : lookupAssoc l k = some d) (f : α → α) :
    lookupAssoc (updateAssoc l k f) k = some (f d) := by
  induction l with
  | nil => simp [lookupAssoc] at h
  | cons p t ih =>
      by_cases hp : p.1 = k
      · simp only [lookupAssoc, hp, beq_self_eq_true, if_true,
          Option.some.injEq] at h
        simp [updateAssoc, lookupAssoc, hp, h]
      · simp only [lookupAssoc, beq_eq_false_iff_ne.mpr hp, Bool.false_eq_true,
          if_false] at h
        simp [updateAssoc, lookupAssoc, hp, ih h]

theorem lookupAssoc_none_iff {α : Type} {l : List (String × α)} {k : String} :
    lookupAssoc l k = none ↔ k ∉ l.map (·.1) := by
  induction l with
  | nil => simp [lookupAssoc]
  | cons p t ih =>
      by_cases hp : p.1 = k
      · simp [lookupAssoc, hp]
      · simp [lookupAssoc, hp, ih, Ne.symm hp]

theorem keys_setAssoc_present {α : Type} {l : List (String × α)} {k : String}
    {a : α} (h : lookupAssoc l k = some a) (v : α) :
    (setAssoc l k v).map (·.1) = l.map (·.1) := by
  induction l with
  | nil => simp [lookupAssoc] at h
  | cons p t ih =>
      by_cases hp : p.1 = k
      · simp [setAssoc, hp]
      · simp only [lookupAssoc, beq_eq_false_iff_ne.mpr hp, Bool.false_eq_true,
          if_false] at h
        simp [setAssoc, hp, ih h]

theorem keys_setAssoc_absent {α : Type} {l : List (String × α)} {k : String}
    (h : lookupAssoc l k = none) (v : α) :
    (setAssoc l k v).map (·.1) = l.map (·.1) ++ [k] := by
  induction l with
  | nil => simp [setAssoc]
  | cons p t ih =>
      by_cases hp : p.1 = k
      · simp [lookupAssoc, hp] at h
      · simp only [lookupAssoc, beq_eq_false_iff_ne.mpr hp, Bool.false_eq_true,
          if_false] at h
        simp [setAssoc, hp, ih h]

theorem keys_updateAssoc {α : Type} (l : List (String × α)) (k : String)
    (f : α → α) : (updateAssoc l k f).map (·.1) = l.map (·.1) := by
  induction l with
  | nil => simp [updateAssoc]
  | cons p t ih =>
      by_cases hp : p.1 = k
      · simp [updateAssoc, hp]
      · simp [updateAssoc, hp, ih]

theorem setAssoc_keys_nodup {α : Type} {l : List (String × α)} {k : String}
    (h : (l.map (·.1)).Nodup) (v : α) : ((setAssoc l k v).map (·.1)).Nodup := by
  cases hl : lookupAssoc l k with
  | some a => rw [keys_setAssoc_present hl]; exact h
  | none =>
      rw [keys_setAssoc_absent hl]
      have hk : k ∉ l.map (·.1) := lookupAssoc_none_iff.mp hl
      simp [List.nodup_append, h, hk]

/-! ## Ratings-collection properties preserved by every write path

`PreservesRatings P` is closed under the monadic combinators; the user-side
primitives never touch the `ratings` collection, and the two ratings writes
(`setDoc` and `updateDoc`) preserve `P` whenever `P` survives the
corresponding association-list operation.  Instantiating `P` gives both the
duplicate-free-keys invariant (claim C4) and index well-formedness. -/

theorem preservesRatings_pure {P : List (String × RatingDoc) → Prop}
    {α : Type} (a : α) : PreservesRatings P (fsPure a) :=
  fun _ h => h

theorem preservesRatings_throw {P : List (String × RatingDoc) → Prop}
    {α : Type} : PreservesRatings P (fsThrow : FS α) :=
  fun _ h => h

theorem preservesRatings_bind {P : List (String × RatingDoc) → Prop}
    {α β : Type} {x : FS α} {f : α → FS β}
    (hx : PreservesRatings P x) (hf : ∀ a, PreservesRatings P (f a)) :
    PreservesRatings P (fsBind x f) := by
  intro db h
  have h' := hx db h
  simp only [fsBind]
  rcases hx0 : x db with ⟨e, db'⟩
  rw [hx0] at h'
  cases e with
  | error e => exact h'
  | ok a => exact hf a db' h'

theorem preservesRatings_catch {P : List (String × RatingDoc) → Prop}
    {α : Type} {x h : FS α}
    (hx : PreservesRatings P x) (hh : PreservesRatings P h) :
    PreservesRatings P (fsCatch x h) := by
  intro db hnd
  have h' := hx db hnd
  simp only [fsCatch]
  rcases hx0 : x db with ⟨e, db'⟩
  rw [hx0] at h'
  cases e with
  | error e => exact hh db' h'
  | ok a => exact h'

theorem preservesRatings_getUser {P : List (String × RatingDoc) → Prop}
    (fl : Faults) (u : String) : PreservesRatings P (fsGetUser fl u) := by
  intro db h
  simp only [fsGetUser]
  split <;> exact h

theorem preservesRatings_setUser {P : List (String × RatingDoc) → Prop}
    (fl : Faults) (u : String) (d : UserDoc) :
    PreservesRatings P (fsSetUser fl u d) := by
  intro db h
  simp only [fsSetUser]
  split <;> exact h

theorem preservesRatings_updateUser {P : List (String × RatingDoc) → Prop}
    (fl : Faults) (u : String) (f : UserDoc → UserDoc) :
    PreservesRatings P (fsUpdateUser fl u f) := by
  intro db h
  simp only [fsUpdateUser]
  split
  · exact h
  · split <;> exact h

theorem preservesRatings_getRating {P : List (String × RatingDoc) → Prop}
    (fl : Faults) (k : String) : PreservesRatings P (fsGetRating fl k) := by
  intro db h
  simp only [fsGetRating]
  split <;> exact h

theorem preservesRatings_setRating {P : List (String × RatingDoc) → Prop}
    (fl : Faults) (k : String) (d : RatingDoc)
    (hset : ∀ l, P l → P (setAssoc l k d)) :
    PreservesRatings P (fsSetRating fl k d) := by
  intro db h
  simp only [fsSetRating]
  split
  · exact h
  · exact hset _ h

theorem preservesRatings_updateRating {P : List (String × RatingDoc) → Prop}
    (fl : Faults) (k : String) (f : RatingDoc → RatingDoc)
    (hupd : ∀ l, P l → P (updateAssoc l k f)) :
    PreservesRatings P (fsUpdateRating fl k f) := by
  intro db h
  simp only [fsUpdateRating]
  split
  · exact h
  · split
    · exact h
    · exact hupd _ h

theorem preservesRatings_ensure {P : List (String × RatingDoc) → Prop}
    (fl : Faults) (now : Nat) (u : String) :
    PreservesRatings P (ensureUserDocument fl now u) := by
  unfold ensureUserDocument
  refine preservesRatings_catch
    (preservesRatings_bind (preservesRatings_getUser fl u) ?_)
    (preservesRatings_pure false)
  intro a
  cases a with
  | none =>
      exact preservesRatings_bind (preservesRatings_setUser fl u _)
        (fun _ => preservesRatings_pure true)
  | some _ => exact preservesRatings_pure true

theorem preservesRatings_removeFromWatchlist
    {P : List (String × RatingDoc) → Prop} (fl : Faults) (now : Nat)
    (u : String) (mid : Int) :
    PreservesRatings P (removeFromWatchlist fl now u mid) := by
  unfold removeFromWatchlist
  refine preservesRatings_catch
    (preservesRatings_bind (preservesRatings_ensure fl now u) ?_)
    preservesRatings_throw
  intro _
  refine preservesRatings_bind (preservesRatings_getUser fl u) ?_
  intro a
  cases a with
  | none => exact preservesRatings_pure false
  | some d =>
      exact preservesRatings_bind (preservesRatings_updateUser fl u _)
        (fun _ => preservesRatings_pure true)

theorem preservesRatings_addWatchedMovie
    {P : List (String × RatingDoc) → Prop} (fl : Faults) (now : Nat)
    (u : String) (movie : Movie) (rating : Int) (review : Option String)
    (hset : ∀ l, P l →
      P (setAssoc l (ratingKey u movie.id) (ratingDocOf u movie rating review now))) :
    PreservesRatings P (addWatchedMovie fl now u movie rating review) := by
  unfold addWatchedMovie
  refine preservesRatings_catch
    (preservesRatings_bind (preservesRatings_ensure fl now u) ?_)
    preservesRatings_throw
  intro _
  refine preservesRatings_bind (preservesRatings_updateUser fl u _) ?_
  intro _
  refine preservesRatings_bind (preservesRatings_setRating fl _ _ hset) ?_
  intro _
  exact preservesRatings_bind
    (preservesRatings_removeFromWatchlist fl now u movie.id)
    (fun _ => preservesRatings_pure true)

theorem preservesRatings_updateMovieRating
    {P : List (String × RatingDoc) → Prop} (fl : Faults) (now : Nat)
    (u : String) (mid : Int) (rating : Int) (review : Option String)
    (hset : ∀ l um, P l →
      P (setAssoc l (ratingKey u mid) (freshRatingDoc u mid um rating review now)))
    (hupd : ∀ l, P l → P (updateAssoc l (ratingKey u mid)
      (fun r0 => { r0 with rating := rating, review := jsOrNull review }))) :
    PreservesRatings P (updateMovieRating fl now u mid rating review) := by
  unfold updateMovieRating
  refine preservesRatings_catch
    (preservesRatings_bind (preservesRatings_ensure fl now u) ?_)
    preservesRatings_throw
  intro _
  refine preservesRatings_bind (preservesRatings_getUser fl u) ?_
  intro a
  cases a with
  | none => exact preservesRatings_pure false
  | some d =>
      refine preservesRatings_bind (preservesRatings_updateUser fl u _) ?_
      intro _
      refine preservesRatings_bind (preservesRatings_getRating fl _) ?_
      intro b
      cases b with
      | some _ =>
          exact preservesRatings_bind
            (preservesRatings_updateRating fl _ _ hupd)
            (fun _ => preservesRatings_pure true)
      | none =>
          cases d.watchedMovies.find? (fun m => m.id == mid) with
          | some userMovieDoc =>
              exact preservesRatings_bind
                (preservesRatings_setRating fl _ _ (fun l => hset l userMovieDoc))
                (fun _ => preservesRatings_pure true)
          | none => exact preservesRatings_pure true

/-! ## Instantiations: duplicate-free keys and index well-formedness -/

theorem preservesRKeys_addWatchedMovie (fl : Faults) (now : Nat) (u : String)
    (movie : Movie) (rating : Int) (review : Option String) (db : DB)
    (h : RatingsKeysNodup db) :
    RatingsKeysNodup ((addWatchedMovie fl now u movie rating review db).2) :=
  @preservesRatings_addWatchedMovie (fun l => (l.map (·.1)).Nodup)
    fl now u movie rating review (fun _ hl => setAssoc_keys_nodup hl _) db h

theorem preservesRKeys_updateMovieRating (fl : Faults) (now : Nat)
    (u : String) (mid : Int) (rating : Int) (review : Option String) (db : DB)
    (h : RatingsKeysNodup db) :
    RatingsKeysNodup ((updateMovieRating fl now u mid rating review db).2) :=
  @preservesRatings_updateMovieRating (fun l => (l.map (·.1)).Nodup)
    fl now u mid rating review
    (fun _ _ hl => setAssoc_keys_nodup hl _)
    (fun _ hl => by simpa only [keys_updateAssoc] using hl) db h

theorem mem_setAssoc_str {α : Type} {l : List (String × α)} {k : String}
    {v : α} : ∀ p ∈ setAssoc l k v, p = (k, v) ∨ p ∈ l := by
  induction l with
  | nil => simp [setAssoc]
  | cons q t ih =>
      intro p hp
      by_cases hq : q.1 = k
      · simp only [setAssoc, hq, beq_self_eq_true, if_true] at hp
        rcases List.mem_cons.mp hp with rfl | hp
        · exact Or.inl rfl
        · exact Or.inr (List.mem_cons_of_mem _ hp)
      · simp only [setAssoc, beq_eq_false_iff_ne.mpr hq, Bool.false_eq_true,
          if_false] at hp
        rcases List.mem_cons.mp hp with rfl | hp
        · exact Or.inr (List.mem_cons_self _ _)
        · rcases ih p hp with h' | h'
          · exact Or.inl h'
          · exact Or.inr (List.mem_cons_of_mem _ h')

theorem mem_updateAssoc_str {α : Type} {l : List (String × α)} {k : String}
    {f : α → α} : ∀ p ∈ updateAssoc l k f,
      (∃ q ∈ l, p = (q.1, f q.2)) ∨ p ∈ l := by
  induction l with
  | nil => simp [updateAssoc]
  | cons q t ih =>
      intro p hp
      by_cases hq : q.1 = k
      · simp only [updateAssoc, hq, beq_self_eq_true, if_true] at hp
        rcases List.mem_cons.mp hp with rfl | hp
        · exact Or.inl ⟨q, List.mem_cons_self _ _, by rw [hq]⟩
        · exact Or.inr (List.mem_cons_of_mem _ hp)
      · simp only [updateAssoc, beq_eq_false_iff_ne.mpr hq, Bool.false_eq_true,
          if_false] at hp
        rcases List.mem_cons.mp hp with rfl | hp
        · exact Or.inr (List.mem_cons_self _ _)
        · rcases ih p hp with ⟨q', hq', h'⟩ | h'
          · exact Or.inl ⟨q', List.mem_cons_of_mem _ hq', h'⟩
          · exact Or.inr (List.mem_cons_of_mem _ h')

/-- Both write paths keep the index well-formed (every document's embedded
`movie.id` equals its `movieId`), so the hypothesis of the C6/C7 theorems is
an invariant the store actually maintains. -/
theorem wellFormedIndex_preserved (fl : Faults) (now : Nat) (u : String)
    (movie : Movie) (mid : Int) (r1 r2 : Int) (rev1 rev2 : Option String)
    (db : DB) (h : WellFormedIndex db) :
    WellFormedIndex ((addWatchedMovie fl now u movie r1 rev1 db).2) ∧
    WellFormedIndex ((updateMovieRating fl now u mid r2 rev2 db).2) := by
  have hbridge : ∀ db' : DB,
      (∀ p ∈ db'.ratings, p.2.movie.id = p.2.movieId) ↔ WellFormedIndex db' := by
    intro db'
    constructor
    · intro hP d_ hd_
      rcases List.mem_map.mp hd_ with ⟨p, hp, rfl⟩
      exact hP p hp
    · intro hW p hp
      exact hW p.2 (List.mem_map_of_mem (·.2) hp)
  have hP : ∀ p ∈ db.ratings, p.2.movie.id = p.2.movieId :=
    (hbridge db).mpr h
  constructor
  · refine (hbridge _).mp
      (@preservesRatings_addWatchedMovie
        (fun l => ∀ p ∈ l, p.2.movie.id = p.2.movieId)
        fl now u movie r1 rev1 ?_ db hP)
    intro l hl p hp
    rcases mem_setAssoc_str p hp with rfl | hp
    · rfl
    · exact hl p hp
  · refine (hbridge _).mp
      (@preservesRatings_updateMovieRating
        (fun l => ∀ p ∈ l, p.2.movie.id = p.2.movieId)
        fl now u mid r2 rev2 ?_ ?_ db hP)
    · intro l um hl p hp
      rcases mem_setAssoc_str p hp with rfl | hp
      · rfl
      · exact hl p hp
    · intro l hl p hp
      rcases mem_updateAssoc_str p hp with ⟨q, hq, rfl⟩ | hp
      · exact hl q hq
      · exact hl p hp

/-! ## Run lemmas for the write operations (healthy store) -/

theorem removeFromWatchlist_run {db : DB} {u : String} {d : UserDoc}
    (hu : lookupAssoc db.users u = some d) (now : Nat) (mid : Int) :
    removeFromWatchlist noFaults now u mid db =
      (Except.ok true,
       { db with users := (updateAssoc db.users u
           (fun v => { v with watchlist := d.watchlist.filter (fun m => !(m.id == mid)) })) }) := by
  have h1 : noFaults.users = false := rfl
  simp [removeFromWatchlist, fsCatch, fsBind, fsPure,
    ensureUserDocument_exists h1 hu, fsGetUser_ok h1, hu,
    fsUpdateUser_ok h1 hu]

theorem addWatchedMovie_run {db : DB} {u : String} {d : UserDoc}
    (hu : lookupAssoc db.users u = some d) (now : Nat) (movie : Movie)
    (r : Int) (rev : Option String) :
    addWatchedMovie noFaults now u movie r rev db =
      (Except.ok true,
       { db with
           users := (updateAssoc (updateAssoc db.users u
             (fun v => { v with watchedMovies := arrayUnionUM v.watchedMovies (watchedEntryOf movie r rev now) })) u
             (fun v => { v with watchlist := d.watchlist.filter (fun m => !(m.id == movie.id)) })),
           ratings := (setAssoc db.ratings (ratingKey u movie.id)
             (ratingDocOf u movie r rev now)) }) := by
  have h1 : noFaults.users = false := rfl
  have h2 : noFaults.ratings = false := rfl
  have hu1 : lookupAssoc (updateAssoc db.users u
      (fun v => { v with watchedMovies := arrayUnionUM v.watchedMovies (watchedEntryOf movie r rev now) })) u
      = some { d with watchedMovies := arrayUnionUM d.watchedMovies (watchedEntryOf movie r rev now) } :=
    lookupAssoc_updateAssoc_self hu _
  simp [addWatchedMovie, fsCatch, fsBind, fsPure,
    ensureUserDocument_exists h1 hu, fsUpdateUser_ok h1 hu,
    fsSetRating_ok h2, removeFromWatchlist_run, hu1]

theorem addWatchedMovie_missing_eq {db : DB} {u : String}
    (hu : lookupAssoc db.users u = none) (now : Nat) (movie : Movie)
    (r : Int) (rev : Option String) :
    addWatchedMovie noFaults now u movie r rev db =
      addWatchedMovie noFaults now u movie r rev
        { db with users := setAssoc db.users u (initialUserDoc u now) } := by
  have h1 : noFaults.users = false := rfl
  have hu0 : lookupAssoc (setAssoc db.users u (initialUserDoc u now)) u
      = some (initialUserDoc u now) := lookupAssoc_setAssoc_self _ _ _
  simp only [addWatchedMovie, fsCatch, fsBind,
    ensureUserDocument_missing h1 hu,
    @ensureUserDocument_exists noFaults h1
      { db with users := setAssoc db.users u (initialUserDoc u now) } u
      (initialUserDoc u now) hu0 now]

theorem updateMovieRating_run_update {db : DB} {u : String} {d : UserDoc}
    {mid : Int} {rd0 : RatingDoc} (hu : lookupAssoc db.users u = some d)
    (hr : lookupAssoc db.ratings (ratingKey u mid) = some rd0) (now : Nat)
    (r : Int) (rev : Option String) :
    updateMovieRating noFaults now u mid r rev db =
      (Except.ok true,
       { db with
           users := (updateAssoc db.users u
             (fun v => { v with watchedMovies := d.watchedMovies.map (fun m => if m.id == mid then { m with rating := some r, review := jsOrElse rev m.review } else m) })),
           ratings := (updateAssoc db.ratings (ratingKey u mid)
             (fun r0 => { r0 with rating := r, review := jsOrNull rev })) }) := by
  have h1 : noFaults.users = false := rfl
  have h2 : noFaults.ratings = false := rfl
  simp [updateMovieRating, fsCatch, fsBind, fsPure,
    ensureUserDocument_exists h1 hu, fsGetUser_ok h1, hu,
    fsUpdateUser_ok h1, fsGetRating_ok h2, hr, fsUpdateRating_ok h2]

theorem updateMovieRating_run_create {db : DB} {u : String} {d : UserDoc}
    {mid : Int} {um : UserMovie} (hu : lookupAssoc db.users u = some d)
    (hr : lookupAssoc db.ratings (ratingKey u mid) = none)
    (hfind : d.watchedMovies.find? (fun m => m.id == mid) = some um)
    (now : Nat) (r : Int) (rev : Option String) :
    updateMovieRating noFaults now u mid r rev db =
      (Except.ok true,
       { db with
           users := (updateAssoc db.users u
             (fun v => { v with watchedMovies := d.watchedMovies.map (fun m => if m.id == mid then { m with rating := some r, review := jsOrElse rev m.review } else m) })),
           ratings := (setAssoc db.ratings (ratingKey u mid)
             (freshRatingDoc u mid um r rev now)) }) := by
  have h1 : noFaults.users = false := rfl
  have h2 : noFaults.ratings = false := rfl
  simp [updateMovieRating, fsCatch, fsBind, fsPure,
    ensureUserDocument_exists h1 hu, fsGetUser_ok h1, hu,
    fsUpdateUser_ok h1, fsGetRating_ok h2, hr, hfind, fsSetRating_ok h2]

theorem updateMovieRating_run_miss {db : DB} {u : String} {d : UserDoc}
    {mid : Int} (hu : lookupAssoc db.users u = some d)
    (hr : lookupAssoc db.ratings (ratingKey u mid) = none)
    (hfind : d.watchedMovies.find? (fun m => m.id == mid) = none)
    (now : Nat) (r : Int) (rev : Option String) :
    updateMovieRating noFaults now u mid r rev db =
      (Except.ok true,
       { db with
           users := (updateAssoc db.users u
             (fun v => { v with watchedMovies := d.watchedMovies.map (fun m => if m.id == mid then { m with rating := some r, review := jsOrElse rev m.review } else m) })) }) := by
  have h1 : noFaults.users = false := rfl
  have h2 : noFaults.ratings = false := rfl
  simp [updateMovieRating, fsCatch, fsBind, fsPure,
    ensureUserDocument_exists h1 hu, fsGetUser_ok h1, hu,
    fsUpdateUser_ok h1, fsGetRating_ok h2, hr, hfind]

/-! ## Remaining support lemmas -/

theorem jsOrElse_falsy {rev : Option String} (h : rev = none ∨ rev = some "")
    (x : Option String) : jsOrElse rev x = x := by
  rcases h with rfl | rfl <;> simp [jsOrElse]

theorem jsOrNull_falsy {rev : Option String} (h : rev = none ∨ rev = some "") :
    jsOrNull rev = none := by
  rcases h with rfl | rfl <;> simp [jsOrNull]

theorem recommendPure_zero (rs : List RatingDoc) (u : String)
    (wm : List UserMovie) : recommendPure rs u wm 0 = [] := by
  simp [recommendPure, jsSlice_zero]

theorem similarUsersLoop_down {fl : Faults} (h : fl.ratings = true)
    (u : String) (m : UserMovie) (ms : List UserMovie) (acc : List String)
    (db : DB) : similarUsersLoop fl u (m :: ms) acc db = (Except.error (), db) := by
  simp [similarUsersLoop, fsBind, fsQueryRatings, h]

/-- With the ratings index unavailable, `getRecommendedMovies` still
succeeds with an empty list for every user and limit: the `catch` swallows
the index failure. -/
theorem getRecommendedMovies_ratingsDown (now : Nat) (u : String) (lim : Int)
    (db : DB) : (getRecommendedMovies ratingsDown now u lim db).1 = Except.ok [] := by
  have h1 : ratingsDown.users = false := rfl
  have h2 : ratingsDown.ratings = true := rfl
  cases hu : lookupAssoc db.users u with
  | some d =>
      cases hLs : d.watchedMovies.filter isHighlyRated with
      | nil =>
          simp [getRecommendedMovies, fsCatch, fsBind,
            ensureUserDocument_exists h1 hu, getWatchedMovies_exists h1 hu,
            hLs, fsPure]
      | cons m ms =>
          simp [getRecommendedMovies, fsCatch, fsBind,
            ensureUserDocument_exists h1 hu, getWatchedMovies_exists h1 hu,
            hLs, similarUsersLoop_down h2, fsPure]
  | none =>
      have hu0 : lookupAssoc (setAssoc db.users u (initialUserDoc u now)) u
          = some (initialUserDoc u now) := lookupAssoc_setAssoc_self _ _ _
      have hw := @getWatchedMovies_exists ratingsDown h1
        { db with users := setAssoc db.users u (initialUserDoc u now) } u
        (initialUserDoc u now) hu0 now
      simp only [initialUserDoc] at hw
      simp [getRecommendedMovies, fsCatch, fsBind,
        ensureUserDocument_missing h1 hu, hw, initialUserDoc, fsPure]

/-! ## The claims -/

/-- C1 counterexample: with the ratings index unavailable (every index query
fails), `getRecommendedMovies` on the scenario store — whose user has three
ratings, two of them high — returns the normal result `Except.ok []` instead
of propagating an error, so a store fault is indistinguishable from a
cold-start empty result.  The claim that a failed index read makes the call
fail with a propagated error is therefore false. -/
theorem C1_counterexample :
    getRecommendedMovies ratingsDown 0 "U" 10 scenarioDB =
      (Except.ok [], scenarioDB) := rfl

/-- C1 amended: when reads against the ratings index fail,
`getRecommendedMovies` catches the error and returns a normal empty list for
every user, limit and store state — it never surfaces the store fault, so
callers cannot distinguish a fault from a cold start. -/
theorem C1_theorem (now : Nat) (u : String) (lim : Int) (db : DB) :
    (getRecommendedMovies ratingsDown now u lim db).1 = Except.ok [] :=
  getRecommendedMovies_ratingsDown now u lim db

/-- C2 counterexample: calling `getRecommendedMovies` for a user with no
user document writes to the store (`ensureUserDocument` creates the missing
document), so the state after the call differs from the state before. -/
theorem C2_counterexample :
    (getRecommendedMovies noFaults 7 "X" 10 scenarioDB).2 ≠ scenarioDB := by
  decide

/-- C2 amended: for every user whose user document already exists,
`getRecommendedMovies` performs no writes at all — the whole store (user
documents with their watchlists and watched lists, and the global ratings
index) is identical before and after the call.  (When the user document is
missing, `ensureUserDocument` creates a blank one — the only write.) -/
theorem C2_theorem {db : DB} {u : String} {d : UserDoc}
    (hu : lookupAssoc db.users u = some d) (now : Nat) (lim : Int) :
    (getRecommendedMovies noFaults now u lim db).2 = db := by
  rw [getRecommendedMovies_ok hu]

/-- C2 witness: the scenario user U exists, and recommending for U leaves
the store untouched. -/
theorem C2_witness :
    lookupAssoc scenarioDB.users "U" = some scenarioUser ∧
    (getRecommendedMovies noFaults 0 "U" 10 scenarioDB).2 = scenarioDB :=
  ⟨rfl, @C2_theorem scenarioDB "U" scenarioUser rfl 0 10⟩

/-- C3 counterexample: `recommend(U, 0)` is not rejected: on the scenario
store (user U existing with high ratings and available neighbors) the call
runs to completion and returns the normal result `Except.ok []` — there is
no InvalidInput error and no input validation at all. -/
theorem C3_counterexample :
    getRecommendedMovies noFaults 0 "U" 0 scenarioDB =
      (Except.ok [], scenarioDB) := rfl

/-- C3 amended: the code performs no input validation: a call with
`limit = 0` proceeds (including its I/O) and returns a normal empty result
for every existing user — not an InvalidInput error. -/
theorem C3_theorem {db : DB} {u : String} {d : UserDoc}
    (hu : lookupAssoc db.users u = some d) (now : Nat) :
    getRecommendedMovies noFaults now u 0 db = (Except.ok [], db) := by
  rw [getRecommendedMovies_ok hu, recommendPure_zero]

/-- C3 witness: instantiating the amended claim on the scenario store. -/
theorem C3_witness :
    lookupAssoc scenarioDB.users "U" = some scenarioUser ∧
    getRecommendedMovies noFaults 5 "U" 0 scenarioDB =
      (Except.ok [], scenarioDB) :=
  ⟨rfl, @C3_theorem scenarioDB "U" scenarioUser rfl 5⟩

/-- C4 counterexample: rating movie A twice through `addWatchedMovie`
(3 stars, then 5 stars) leaves TWO watched-movie records for the pair
(user "u", movie 1) in the per-user store — `arrayUnion` appends because the
new object differs, so the second rating does not overwrite the first. -/
theorem C4_counterexample :
    (lookupAssoc rateTwiceDB.users "u").map
      (fun d => d.watchedMovies.map (fun m => (m.id, m.rating)))
      = some [(1, some 3), (1, some 5)] := by decide

/-- C4 amended: in the global ratings index the invariant does hold — the
index is keyed by `"{userId}_{movieId}"` and both write paths keep its keys
duplicate-free, so at most one index document exists per (userId, movieId)
pair after any `addWatchedMovie` or `updateMovieRating`; but the per-user
`watchedMovies` array can accumulate duplicate records for a pair (see the
counterexample), because `addWatchedMovie` appends via `arrayUnion` instead
of replacing. -/
theorem C4_theorem (fl : Faults) (now : Nat) (u : String) (movie : Movie)
    (mid : Int) (r1 r2 : Int) (rev1 rev2 : Option String) (db : DB)
    (h : RatingsKeysNodup db) :
    RatingsKeysNodup ((addWatchedMovie fl now u movie r1 rev1 db).2) ∧
    RatingsKeysNodup ((updateMovieRating fl now u mid r2 rev2 db).2) :=
  ⟨preservesRKeys_addWatchedMovie fl now u movie r1 rev1 db h,
   preservesRKeys_updateMovieRating fl now u mid r2 rev2 db h⟩

/-- C4 witness: the fresh store has duplicate-free index keys, and both
write operations keep it that way. -/
theorem C4_witness :
    RatingsKeysNodup freshDB ∧
    (RatingsKeysNodup ((addWatchedMovie noFaults 0 "u" mvA 3 none freshDB).2) ∧
     RatingsKeysNodup ((updateMovieRating noFaults 0 "u" 1 5 none freshDB).2)) :=
  ⟨by decide, C4_theorem noFaults 0 "u" mvA 1 3 5 none none freshDB (by decide)⟩

/-- C5 counterexample: user "u" has movie A (id 1) both watched and on the
watchlist; after `updateMovieRating` re-rates it, the watchlist still
contains movie 1 — `updateMovieRating` does not remove watchlist entries,
contradicting the claim that both upsert paths do. -/
theorem C5_counterexample :
    (lookupAssoc ((updateMovieRating noFaults 0 "u" 1 5 none watchlistDB).2).users "u").map
      (fun d => d.watchlist.map (·.id)) = some [1] := by decide

/-- C5 amended: `addWatchedMovie` does remove every watchlist entry for the
rated movie in the same logical operation, for every starting store state;
`updateMovieRating`, however, leaves the user's watchlist exactly as it
was. -/
theorem C5_theorem (now : Nat) (u : String) (movie : Movie) (mid r : Int)
    (rev : Option String) (db : DB) :
    (∃ d', lookupAssoc ((addWatchedMovie noFaults now u movie r rev db).2).users u = some d' ∧
       ∀ m ∈ d'.watchlist, ¬ m.id = movie.id) ∧
    (∀ d, lookupAssoc db.users u = some d →
       ∃ d', lookupAssoc ((updateMovieRating noFaults now u mid r rev db).2).users u = some d' ∧
         d'.watchlist = d.watchlist) := by
  constructor
  · cases hu : lookupAssoc db.users u with
    | some d =>
        rw [addWatchedMovie_run hu]
        refine ⟨_, lookupAssoc_updateAssoc_self (lookupAssoc_updateAssoc_self hu _) _, ?_⟩
        intro m hm
        have := List.mem_filter.mp hm
        simpa using this.2
    | none =>
        rw [addWatchedMovie_missing_eq hu, addWatchedMovie_run (lookupAssoc_setAssoc_self _ _ _)]
        refine ⟨_, lookupAssoc_updateAssoc_self
          (lookupAssoc_updateAssoc_self (lookupAssoc_setAssoc_self _ _ _) _) _, ?_⟩
        intro m hm
        have := List.mem_filter.mp hm
        simpa using this.2
  · intro d hu
    cases hr : lookupAssoc db.ratings (ratingKey u mid) with
    | some rd0 =>
        rw [updateMovieRating_run_update hu hr]
        exact ⟨_, lookupAssoc_updateAssoc_self hu _, rfl⟩
    | none =>
        cases hfind : d.watchedMovies.find? (fun m => m.id == mid) with
        | some um =>
            rw [updateMovieRating_run_create hu hr hfind]
            exact ⟨_, lookupAssoc_updateAssoc_self hu _, rfl⟩
        | none =>
            rw [updateMovieRating_run_miss hu hr hfind]
            exact ⟨_, lookupAssoc_updateAssoc_self hu _, rfl⟩

/-- C5 witness: on the store where movie A is both watched and watchlisted,
`addWatchedMovie` leaves a watchlist with no entry for A, while
`updateMovieRating` leaves the watchlist equal to `[mvA]`. -/
theorem C5_witness :
    (∃ d', lookupAssoc ((addWatchedMovie noFaults 0 "u" mvA 5 none watchlistDB).2).users "u" = some d' ∧
       ∀ m ∈ d'.watchlist, ¬ m.id = mvA.id) ∧
    (∃ d', lookupAssoc ((updateMovieRating noFaults 0 "u" 1 5 none watchlistDB).2).users "u" = some d' ∧
       d'.watchlist = [mvA]) :=
  ⟨(C5_theorem 0 "u" mvA 1 5 none watchlistDB).1,
   (C5_theorem 0 "u" mvA 1 5 none watchlistDB).2 _ rfl⟩

/-- C6: for every store state whose ratings documents carry their own movie
id, the score of each movie returned by `getRecommendedMovies` equals the
sum, over the similar users discovered for the caller (exactly the users
other than the caller with a ≥4-star rating on some movie the caller rated
≥4), of that neighbor's ≥4-star rating mass on the movie.  (The spec's
concrete scenario — `recommend(U, 10) = [D(9), E(4)]` — is checked in the
witness.) -/
theorem C6_theorem {db : DB} {u : String} {d : UserDoc}
    (hu : lookupAssoc db.users u = some d) (hwf : WellFormedIndex db)
    (now : Nat) (lim : Int) {res : List ScoredMovie}
    (hres : (getRecommendedMovies noFaults now u lim db).1 = Except.ok res) :
    (∀ m ∈ res, m.score =
      ((similarUsersPure (ratingDocs db) u (d.watchedMovies.filter isHighlyRated) []).map
        (fun n => neighborContrib (ratingDocs db) n m.id)).sum) ∧
    (∀ n, n ∈ similarUsersPure (ratingDocs db) u (d.watchedMovies.filter isHighlyRated) [] ↔
      n ≠ u ∧ ∃ mv ∈ d.watchedMovies.filter isHighlyRated, ∃ d_ ∈ ratingDocs db,
        d_.userId = n ∧ d_.movieId = mv.id ∧ 4 ≤ d_.rating) := by
  have hres' : recommendPure (ratingDocs db) u d.watchedMovies lim = res := by
    rw [getRecommendedMovies_ok hu] at hres
    exact Except.ok.inj hres
  constructor
  · intro m hm
    rw [← hres', recommendPure] at hm
    split at hm
    · simp at hm
    · split at hm
      · simp at hm
      · have hm1 : m ∈ jsSortByScoreDesc
            ((candidateMap (ratingDocs db) u d.watchedMovies).map (·.2)) :=
          (jsSlice_sublist _ _).subset hm
        have hm2 : m ∈ (candidateMap (ratingDocs db) u d.watchedMovies).map (·.2) :=
          (sortDesc_perm _).mem_iff.mp hm1
        rcases List.mem_map.mp hm2 with ⟨p, hp, rfl⟩
        rcases candidateMap_entry_props hwf p hp with ⟨hid, _, hsc⟩
        rw [hid]
        exact hsc
  · intro n
    rw [mem_similarUsersPure]
    simp

/-- C6 witness: on the scenario store, `recommend(U, 10)` returns
`[D(9), E(4)]` exactly, and each returned score is the sum of the
neighbors' (V and W) ≥4-star contributions. -/
theorem C6_witness :
    getRecommendedMovies noFaults 0 "U" 10 scenarioDB =
      (Except.ok scenarioExpected, scenarioDB) ∧
    ∀ m ∈ scenarioExpected, m.score =
      ((similarUsersPure (ratingDocs scenarioDB) "U"
          (scenarioUser.watchedMovies.filter isHighlyRated) []).map
        (fun n => neighborContrib (ratingDocs scenarioDB) n m.id)).sum :=
  ⟨rfl, (@C6_theorem scenarioDB "U" scenarioUser rfl (by decide) 0 10 scenarioExpected rfl).1⟩

/-- C7: for every store whose ratings documents carry their own movie id,
no movie returned by `getRecommendedMovies` appears in the caller's own
watched list — an already-rated movie is never recommended. -/
theorem C7_theorem {db : DB} {u : String} {d : UserDoc}
    (hu : lookupAssoc db.users u = some d) (hwf : WellFormedIndex db)
    (now : Nat) (lim : Int) {res : List ScoredMovie}
    (hres : (getRecommendedMovies noFaults now u lim db).1 = Except.ok res) :
    ∀ m ∈ res, m.id ∉ d.watchedMovies.map (·.id) := by
  have hres' : recommendPure (ratingDocs db) u d.watchedMovies lim = res := by
    rw [getRecommendedMovies_ok hu] at hres
    exact Except.ok.inj hres
  intro m hm
  rw [← hres', recommendPure] at hm
  split at hm
  · simp at hm
  · split at hm
    · simp at hm
    · have hm1 : m ∈ jsSortByScoreDesc
          ((candidateMap (ratingDocs db) u d.watchedMovies).map (·.2)) :=
        (jsSlice_sublist _ _).subset hm
      have hm2 : m ∈ (candidateMap (ratingDocs db) u d.watchedMovies).map (·.2) :=
        (sortDesc_perm _).mem_iff.mp hm1
      rcases List.mem_map.mp hm2 with ⟨p, hp, rfl⟩
      rcases candidateMap_entry_props hwf p hp with ⟨hid, hkw, _⟩
      rw [hid]
      exact hkw

/-- C7 witness: the scenario store is well-formed and neither D nor E is in
U's watched list. -/
theorem C7_witness :
    WellFormedIndex scenarioDB ∧
    ∀ m ∈ scenarioExpected, m.id ∉ scenarioUser.watchedMovies.map (·.id) :=
  ⟨by decide, @C7_theorem scenarioDB "U" scenarioUser rfl (by decide) 0 10 scenarioExpected rfl⟩

/-- C8: cold start is a normal empty result, not an error: whenever the user
has no ≥4-star rating, or no other user has a ≥4-star rating on any of the
user's liked movies, `getRecommendedMovies` returns `Except.ok []` and
leaves the store unchanged. -/
theorem C8_theorem {db : DB} {u : String} {d : UserDoc}
    (hu : lookupAssoc db.users u = some d) (now : Nat) (lim : Int)
    (hcold : d.watchedMovies.filter isHighlyRated = [] ∨
      ∀ d_ ∈ ratingDocs db, d_.userId ≠ u → 4 ≤ d_.rating →
        d_.movieId ∉ (d.watchedMovies.filter isHighlyRated).map (·.id)) :
    getRecommendedMovies noFaults now u lim db = (Except.ok [], db) := by
  rw [getRecommendedMovies_ok hu]
  rcases hcold with h | h
  · simp [recommendPure, h]
  · have hns : similarUsersPure (ratingDocs db) u
        (d.watchedMovies.filter isHighlyRated) [] = [] := by
      rw [List.eq_nil_iff_forall_not_mem]
      intro n hn
      rcases (mem_similarUsersPure _ _ n).mp hn with
        h0 | ⟨hnu, mv, hmv, d_, hd_, hdu, hdm, hdr⟩
      · exact absurd h0 (List.not_mem_nil n)
      · exact h d_ hd_ (fun he => hnu (hdu.symm.trans he)) hdr
          (hdm ▸ List.mem_map_of_mem (·.id) hmv)
    simp [recommendPure, hns]

/-- C8 witness: user Z has no ≥4-star rating, and `recommend(Z, 5)` over the
scenario index returns the normal empty result. -/
theorem C8_witness :
    coldUser.watchedMovies.filter isHighlyRated = [] ∧
    getRecommendedMovies noFaults 0 "Z" 5 coldStartDB =
      (Except.ok [], coldStartDB) :=
  ⟨by decide, @C8_theorem coldStartDB "Z" coldUser rfl 0 5 (Or.inl (by decide))⟩

/-- C9 counterexample: the claim quantifies over every call, but a call with
`limit = -1` (no validation rejects it, per C3) slices with a negative end
index: on the scenario store it returns the single movie D, whose length 1
is not ≤ the limit -1 — so "length ≤ limit" and "first `limit` elements"
fail for negative limits. -/
theorem C9_counterexample :
    (getRecommendedMovies noFaults 0 "U" (-1) scenarioDB).1 =
      Except.ok [{ id := 4, title := "D", poster_path := none, score := 9 }] ∧
    ¬ ((([({ id := 4, title := "D", poster_path := none, score := 9 } : ScoredMovie)]).length : Int) ≤ -1) :=
  ⟨rfl, by decide⟩

/-- C9 amended: for every call with `limit ≥ 0`, the returned sequence is
exactly the candidate list sorted by score descending (stable — ties keep
their first-encounter order, witnessed by the pair-sublist stability
property) truncated to the first `limit` elements; consequently its length
is ≤ `limit` and its scores are monotonically non-increasing. -/
theorem C9_theorem {db : DB} {u : String} {d : UserDoc}
    (hu : lookupAssoc db.users u = some d) (now : Nat) {lim : Int}
    (hlim : 0 ≤ lim) {res : List ScoredMovie}
    (hres : (getRecommendedMovies noFaults now u lim db).1 = Except.ok res) :
    res = jsSlice (jsSortByScoreDesc
        ((candidateMap (ratingDocs db) u d.watchedMovies).map (·.2))) lim ∧
    res.Pairwise (fun a b => b.score ≤ a.score) ∧
    ((res.length : Int) ≤ lim) ∧
    (∀ a b : ScoredMovie,
      [a, b].Sublist ((candidateMap (ratingDocs db) u d.watchedMovies).map (·.2)) →
      b.score ≤ a.score →
      [a, b].Sublist (jsSortByScoreDesc
        ((candidateMap (ratingDocs db) u d.watchedMovies).map (·.2)))) := by
  have hres' : recommendPure (ratingDocs db) u d.watchedMovies lim = res := by
    rw [getRecommendedMovies_ok hu] at hres
    exact Except.ok.inj hres
  have h1 : recommendPure (ratingDocs db) u d.watchedMovies lim =
      jsSlice (jsSortByScoreDesc
        ((candidateMap (ratingDocs db) u d.watchedMovies).map (·.2))) lim := by
    rw [recommendPure]
    split
    · rename_i hL
      have hL' : d.watchedMovies.filter isHighlyRated = [] := by simpa using hL
      simp [candidateMap, hL', similarUsersPure, candidatesPure,
        jsSortByScoreDesc, jsSlice]
    · split
      · rename_i hN
        have hN' : similarUsersPure (ratingDocs db) u
            (d.watchedMovies.filter isHighlyRated) [] = [] := by simpa using hN
        simp [candidateMap, hN', candidatesPure, jsSortByScoreDesc, jsSlice]
      · rfl
  rw [← hres']
  refine ⟨h1, ?_, ?_, fun a b hab hsc => pair_sublist_sortDesc hab hsc⟩
  · rw [h1]
    exact List.Pairwise.sublist (jsSlice_sublist _ _) (sortDesc_sorted _)
  · rw [h1]
    exact jsSlice_length_le _ hlim

/-- C9 witness: the scenario call `recommend(U, 10)` instantiates the
amended claim: `[D(9), E(4)]` is the sorted truncation, is sorted
descending, and has length ≤ 10. -/
theorem C9_witness :
    (0 : Int) ≤ 10 ∧
    scenarioExpected = jsSlice (jsSortByScoreDesc
      ((candidateMap (ratingDocs scenarioDB) "U" scenarioUser.watchedMovies).map (·.2))) 10 ∧
    scenarioExpected.Pairwise (fun a b => b.score ≤ a.score) ∧
    ((scenarioExpected.length : Int) ≤ 10) :=
  ⟨by decide,
   (@C9_theorem scenarioDB "U" scenarioUser rfl 0 10 (by decide) scenarioExpected rfl).1,
   (@C9_theorem scenarioDB "U" scenarioUser rfl 0 10 (by decide) scenarioExpected rfl).2.1,
   (@C9_theorem scenarioDB "U" scenarioUser rfl 0 10 (by decide) scenarioExpected rfl).2.2.1⟩

/-- C10: when the user's watched list contains the movie and the `review`
argument is omitted (`none`) or the empty string, `updateMovieRating` keeps
the per-user entry's previous review text (`review || movie.review`) while
writing `null` (`none`) into the mirrored ratings document's review field
(`review || null`) — so the two records' review fields can disagree after
the call. -/
theorem C10_theorem {db : DB} {u : String} {d : UserDoc} {um : UserMovie}
    {mid r : Int} {rev : Option String}
    (hu : lookupAssoc db.users u = some d)
    (hrev : rev = none ∨ rev = some "")
    (hfind : d.watchedMovies.find? (fun m => m.id == mid) = some um)
    (now : Nat) :
    (∃ d', lookupAssoc ((updateMovieRating noFaults now u mid r rev db).2).users u = some d' ∧
       d'.watchedMovies = d.watchedMovies.map (fun m =>
         if m.id == mid then { m with rating := some r } else m)) ∧
    (∃ rdoc, lookupAssoc ((updateMovieRating noFaults now u mid r rev db).2).ratings
        (ratingKey u mid) = some rdoc ∧ rdoc.rating = r ∧ rdoc.review = none) := by
  cases hr : lookupAssoc db.ratings (ratingKey u mid) with
  | some rd0 =>
      rw [updateMovieRating_run_update hu hr]
      constructor
      · refine ⟨_, lookupAssoc_updateAssoc_self hu _, ?_⟩
        simp [jsOrElse_falsy hrev]
      · refine ⟨_, lookupAssoc_updateAssoc_self hr _, rfl, ?_⟩
        simp [jsOrNull_falsy hrev]
  | none =>
      rw [updateMovieRating_run_create hu hr hfind]
      constructor
      · refine ⟨_, lookupAssoc_updateAssoc_self hu _, ?_⟩
        simp [jsOrElse_falsy hrev]
      · refine ⟨_, lookupAssoc_setAssoc_self _ _ _, rfl, ?_⟩
        simp [freshRatingDoc, jsOrNull_falsy hrev]

/-- C10 witness: re-rating movie A without a review on the reviewed store
keeps "great" in the per-user entry and writes `none` into the ratings
document. -/
theorem C10_witness :
    (∃ d', lookupAssoc ((updateMovieRating noFaults 9 "u" 1 4 none reviewedDB).2).users "u" = some d' ∧
       d'.watchedMovies = reviewedUser.watchedMovies.map (fun m =>
         if m.id == 1 then { m with rating := some 4 } else m)) ∧
    (∃ rdoc, lookupAssoc ((updateMovieRating noFaults 9 "u" 1 4 none reviewedDB).2).ratings
        (ratingKey "u" 1) = some rdoc ∧ rdoc.rating = 4 ∧ rdoc.review = none) :=
  @C10_theorem reviewedDB "u" reviewedUser reviewedUM 1 4 none rfl (Or.inl rfl) (by decide) 9

end ReelPick
